import Mathlib

/-!
Verification of the summarize-handler core of the AWS Personal Cloud Assistant
repository (first handler variant of the summarize Lambda, the Bedrock-backed
one).  JavaScript strings are modelled as lists of UTF-16 code units
(`List Nat`); byte buffers are modelled as lists of byte values (`List Nat`).
External collaborators (S3, zlib inflate, Textract, Bedrock) are modelled as
oracle parameters.  All numeric score arithmetic is carried out exactly in `ℚ`.
-/

set_option maxRecDepth 100000

set_option maxHeartbeats 4000000

/-- Printable ASCII: 0x20–0x7E, the class `[\x20-\x7E]` used by the source. -/
def isPrintableB (c : Nat) : Bool :=
  decide (32 ≤ c) && decide (c ≤ 126)

/-- ASCII letter, the class `[A-Za-z]`. -/
def isLetterB (c : Nat) : Bool :=
  (decide (65 ≤ c) && decide (c ≤ 90)) || (decide (97 ≤ c) && decide (c ≤ 122))

/-- ASCII vowel, the class `[AEIOUaeiou]`. -/
def isVowelB (c : Nat) : Bool :=
  c == 65 || c == 69 || c == 73 || c == 79 || c == 85 ||
  c == 97 || c == 101 || c == 105 || c == 111 || c == 117

/-- The JavaScript regular-expression class `\s` (WhiteSpace and
LineTerminator code points), which is also the set removed by
`String.prototype.trim`. -/
def isWsB (c : Nat) : Bool :=
  c == 9 || c == 10 || c == 11 || c == 12 || c == 13 || c == 32 ||
  c == 160 || c == 5760 || (decide (8192 ≤ c) && decide (c ≤ 8202)) ||
  c == 8232 || c == 8233 || c == 8239 || c == 8287 || c == 12288 || c == 65279

/-- Sentence-terminating punctuation, the class `[.!?]`. -/
def isPunctB (c : Nat) : Bool :=
  c == 46 || c == 33 || c == 63

/-- JavaScript regular-expression line terminators (the code points that `.`
does not match). -/
def isLineTermB (c : Nat) : Bool :=
  c == 10 || c == 13 || c == 8232 || c == 8233

/-- Worker for `replaceRuns`; `inRun` records whether the previous character
belonged to the run being replaced. -/
def replaceRunsAux (p : Nat → Bool) (r : Nat) (inRun : Bool) : List Nat → List Nat
  | [] => []
  | c :: rest =>
    if p c then
      if inRun then replaceRunsAux p r true rest
      else r :: replaceRunsAux p r true rest
    else c :: replaceRunsAux p r false rest

/-- Replacement of every maximal run of characters satisfying `p` by the single
character `r`; this is `text.replace(/class+/g, r)` for a character class. -/
def replaceRuns (p : Nat → Bool) (r : Nat) (l : List Nat) : List Nat :=
  replaceRunsAux p r false l

/-- The model of `String.prototype.trim`: drop `\s` characters from both
ends. -/
def jsTrim (l : List Nat) : List Nat :=
  ((l.dropWhile isWsB).reverse.dropWhile isWsB).reverse

/-- Worker for `jsSplitRuns`; `afterSep` records whether the previous character
was a separator (so that a separator run yields a single boundary), and `cur`
is the reversed piece being accumulated. -/
def jsSplitAux (p : Nat → Bool) (afterSep : Bool) (cur : List Nat) :
    List Nat → List (List Nat)
  | [] => [cur.reverse]
  | c :: rest =>
    if p c then
      if afterSep then jsSplitAux p true [] rest
      else cur.reverse :: jsSplitAux p true [] rest
    else jsSplitAux p false (c :: cur) rest

/-- The model of `str.split(/class+/)` in JavaScript: pieces between maximal
separator runs, including an empty leading (trailing) piece when the string
starts (ends) with a separator, and `[""]` on the empty string. -/
def jsSplitRuns (p : Nat → Bool) (l : List Nat) : List (List Nat) :=
  jsSplitAux p false [] l

/-- Token filter of `sanitizeText` (source lines 386–393): keep a token iff it
has an ASCII letter, is not a vowelless token longer than 5 characters, and is
at most 60 characters long. -/
def filterTok (tok : List Nat) : Bool :=
  let hasLetter := tok.any isLetterB
  let hasVowel := tok.any isVowelB
  if !hasLetter then false
  else if !hasVowel && decide (5 < tok.length) then false
  else if decide (60 < tok.length) then false
  else true

/-- The `cleaned` intermediate of `sanitizeText` (source lines 381–384):
replace non-printable-ASCII runs by a space, collapse whitespace runs, trim. -/
def sanitizeCleaned (text : List Nat) : List Nat :=
  jsTrim (replaceRuns isWsB 32 (replaceRuns (fun c => !isPrintableB c) 32 text))

/-- Worker for `splitChar`; `cur` is the reversed piece being accumulated. -/
def splitCharAux (sep : Nat) (cur : List Nat) : List Nat → List (List Nat)
  | [] => [cur.reverse]
  | c :: rest =>
    if c = sep then cur.reverse :: splitCharAux sep [] rest
    else splitCharAux sep (c :: cur) rest

/-- The model of `str.split(sep)` for a one-character separator: a boundary at
every occurrence, `[""]` on the empty string. -/
def splitChar (sep : Nat) (l : List Nat) : List (List Nat) :=
  splitCharAux sep [] l

/-- The `result` intermediate of `sanitizeText` (source line 394): split the
cleaned text on single spaces, filter tokens, rejoin with single spaces,
trim. -/
def sanitizePreCap (text : List Nat) : List Nat :=
  jsTrim (List.intercalate [32] ((splitChar 32 (sanitizeCleaned text)).filter filterTok))

/-- The model of `sanitizeText` (source lines 379–396): the filtered rejoin,
capped at 12,000 characters. -/
def sanitizeText (text : List Nat) : List Nat :=
  if 12000 < (sanitizePreCap text).length then (sanitizePreCap text).take 12000
  else sanitizePreCap text

/-- Result of `scoreTextQuality`: the composite score and its components. -/
structure Quality where
  score : ℚ
  lettersRatio : ℚ
  vowelRatio : ℚ
  words : Nat
deriving DecidableEq

/-- The model of `scoreTextQuality` (source lines 354–364).  `total` is
`text.length || 1`; `words` is `text.split(/\s+/).filter(Boolean).length`. -/
def scoreTextQuality (text : List Nat) : Quality :=
  let total : ℚ := ((if text.length = 0 then 1 else text.length : Nat) : ℚ)
  let letters : Nat := text.countP isLetterB
  let vowels : Nat := text.countP isVowelB
  let words : Nat := ((jsSplitRuns isWsB text).filter (fun t => decide (t ≠ []))).length
  let lettersRatio : ℚ := (letters : ℚ) / total
  let vowelRatio : ℚ := if 0 < letters then (vowels : ℚ) / (letters : ℚ) else 0
  let wordScore : ℚ := min ((words : ℚ) / 80) 1
  ⟨0.5 * lettersRatio + 0.3 * vowelRatio + 0.2 * wordScore, lettersRatio, vowelRatio, words⟩

/-- Code units of a Lean string, used to transcribe the string
literals of the source. -/
def strCodes (s : String) : List Nat :=
  s.data.map Char.toNat

/-- Prefix test used by the `indexOf` model. -/
def startsWithL : List Nat → List Nat → Bool
  | [], _ => true
  | _ :: _, [] => false
  | p :: ps, x :: xs => p == x && startsWithL ps xs

/-- Worker for `indexOfFrom`: first position `≥ i` of the pattern. -/
def findFromAux (pat : List Nat) : List Nat → Nat → Option Nat
  | [], i => if pat.isEmpty then some i else none
  | l@(_ :: rest), i =>
    if startsWithL pat l then some i else findFromAux pat rest (i + 1)

/-- The model of `str.indexOf(pat, start)`: `none` plays the role of `-1`. -/
def indexOfFrom (pat s : List Nat) (start : Nat) : Option Nat :=
  findFromAux pat (s.drop start) start

/-- Greedy scan of the body of the PDF literal-string pattern
`/\((?:\\.|[^\\)])*\)/` after an opening parenthesis: consumes
backslash-pairs (the `.` refusing line terminators) and single characters that
are neither `\` nor `)`, and succeeds on reaching `)`; returns the body and
the remainder after the closing parenthesis. -/
def tryLit : List Nat → Option (List Nat × List Nat)
  | [] => none
  | c :: rest =>
    if c = 41 then some ([], rest)
    else if c = 92 then
      match rest with
      | [] => none
      | c2 :: r2 =>
        if isLineTermB c2 then none
        else
          match tryLit r2 with
          | none => none
          | some (b, r) => some (92 :: c2 :: b, r)
    else
      match tryLit rest with
      | none => none
      | some (b, r) => some (c :: b, r)

/-- Worker for `litScan`; advances one position on failure, past the match on
success, as the global-flag regex engine does. -/
def litScanGo (_fuel : Nat) : Nat → List Nat → List (List Nat)
  | 0, _ => []
  | _ + 1, [] => []
  | fuel + 1, c :: rest =>
    if c = 40 then
      match tryLit rest with
      | some (b, rest2) => (40 :: (b ++ [41])) :: litScanGo 0 fuel rest2
      | none => litScanGo 0 fuel rest
    else litScanGo 0 fuel rest

/-- All matches of `candidate.match(/\((?:\\.|[^\\)])*\)/g)`, in order. -/
def litScan (s : List Nat) : List (List Nat) :=
  litScanGo 0 (s.length + 1) s

/-- Left-to-right, non-overlapping replacement of the two-character sequence
`[a, b]` by `repl`; this is `str.replace(/\ab/g, repl)` for an escaped pair. -/
def replaceSeq2 (a b : Nat) (repl : List Nat) : List Nat → List Nat
  | [] => []
  | [x] => [x]
  | x :: y :: rest =>
    if x = a ∧ y = b then repl ++ replaceSeq2 a b repl rest
    else x :: replaceSeq2 a b repl (y :: rest)

/-- Cleaning of one literal-string match (source lines 323–332): strip the
delimiters, unescape `\n \r \t \f` to spaces and `\\` to a backslash, collapse
whitespace, trim. -/
def cleanLit (obj : List Nat) : List Nat :=
  jsTrim (replaceRuns isWsB 32 (replaceSeq2 92 92 [92] (replaceSeq2 92 102 [32]
    (replaceSeq2 92 116 [32] (replaceSeq2 92 114 [32] (replaceSeq2 92 110 [32]
      ((obj.drop 1).dropLast)))))))

def streamStr : String := "stream"

def endstreamStr : String := "endstream"

/-- The stream-scanning loop of `extractTextFromPdfBuffer` (source lines
306–338): repeatedly locate `stream`, the following line break, and
`endstream`, decompress the slice when the `inflate` oracle succeeds, collect
the cleaned literal-string matches and continue after `endstream`.  The fuel
argument, instantiated with `buffer.length + 1`, dominates the iteration count
since the cursor advances by at least 9 per iteration. -/
def streamLoop (inflate : List Nat → Option (List Nat)) (buffer : List Nat) :
    Nat → Nat → List (List Nat)
  | 0, _ => []
  | fuel + 1, idx =>
    if idx < buffer.length then
      match indexOfFrom (strCodes streamStr) buffer idx with
      | none => []
      | some streamPos =>
        match indexOfFrom [10] buffer streamPos with
        | none => []
        | some start =>
          match indexOfFrom (strCodes endstreamStr) buffer start with
          | none => []
          | some endPos =>
            let streamContent := (buffer.drop (start + 1)).take (endPos - (start + 1))
            let candidate :=
              match inflate streamContent with
              | some infl => infl
              | none => streamContent
            ((litScan candidate).map cleanLit).filter (fun t => decide (0 < t.length))
              ++ streamLoop inflate buffer fuel (endPos + 9)
    else []

/-- Worker for `jsMatchPrintableRuns`; `run` accumulates (reversed) the current
maximal printable run, flushed when it has length at least 5. -/
def printRunsAux (run : List Nat) : List Nat → List (List Nat)
  | [] => if 5 ≤ run.length then [run.reverse] else []
  | c :: rest =>
    if isPrintableB c then printRunsAux (c :: run) rest
    else (if 5 ≤ run.length then [run.reverse] else []) ++ printRunsAux [] rest

/-- All matches of `raw.match(/[\x20-\x7E]{5,}/g)`: the maximal runs of
printable ASCII of length at least 5, in order. -/
def jsMatchPrintableRuns (l : List Nat) : List (List Nat) :=
  printRunsAux [] l

/-- The raw-scan fallback text-parts (source lines 341–347): each matched run
whitespace-collapsed and trimmed, empties dropped. -/
def rawScanParts (raw : List Nat) : List (List Nat) :=
  ((jsMatchPrintableRuns raw).map (fun m => jsTrim (replaceRuns isWsB 32 m))).filter
    (fun t => decide (0 < t.length))

/-- The model of `extractTextFromPdfBuffer` (source lines 302–352); `inflate`
is the `zlib.inflateSync` oracle (`none` means the stream is not FlateDecode).
The latin1 view of the buffer is the buffer itself, one code unit per byte. -/
def extractTextFromPdfBuffer (inflate : List Nat → Option (List Nat))
    (buffer : List Nat) : List Nat :=
  let parts := streamLoop inflate buffer (buffer.length + 1) 0
  let parts2 := if parts = [] then rawScanParts buffer else parts
  (List.intercalate [32] parts2).take 12000

/-- Continuation byte test for the UTF-8 decoder. -/
def isContB (c : Nat) : Bool :=
  decide (128 ≤ c) && decide (c ≤ 191)

/-- Worker for `decodeUtf8`; the fuel argument dominates the number of decoded
units since every step consumes at least one byte. -/
def decodeUtf8Go : Nat → List Nat → List Nat
  | 0, _ => []
  | _ + 1, [] => []
  | fuel + 1, b1 :: rest =>
    if b1 ≤ 127 then b1 :: decodeUtf8Go fuel rest
    else if 194 ≤ b1 ∧ b1 ≤ 223 then
      match rest with
      | [] => [65533]
      | b2 :: r2 =>
        if isContB b2 then ((b1 - 192) * 64 + (b2 - 128)) :: decodeUtf8Go fuel r2
        else 65533 :: decodeUtf8Go fuel rest
    else if 224 ≤ b1 ∧ b1 ≤ 239 then
      match rest with
      | [] => [65533]
      | b2 :: r2 =>
        if (if b1 = 224 then 160 else 128) ≤ b2 ∧ b2 ≤ (if b1 = 237 then 159 else 191) then
          match r2 with
          | [] => [65533]
          | b3 :: r3 =>
            if isContB b3 then
              ((b1 - 224) * 4096 + (b2 - 128) * 64 + (b3 - 128)) :: decodeUtf8Go fuel r3
            else 65533 :: decodeUtf8Go fuel r2
        else 65533 :: decodeUtf8Go fuel rest
    else if 240 ≤ b1 ∧ b1 ≤ 244 then
      match rest with
      | [] => [65533]
      | b2 :: r2 =>
        if (if b1 = 240 then 144 else 128) ≤ b2 ∧ b2 ≤ (if b1 = 244 then 143 else 191) then
          match r2 with
          | [] => [65533]
          | b3 :: r3 =>
            if isContB b3 then
              match r3 with
              | [] => [65533]
              | b4 :: r4 =>
                if isContB b4 then
                  (55296 + ((b1 - 240) * 262144 + (b2 - 128) * 4096 + (b3 - 128) * 64
                      + (b4 - 128) - 65536) / 1024)
                    :: (56320 + ((b1 - 240) * 262144 + (b2 - 128) * 4096 + (b3 - 128) * 64
                      + (b4 - 128) - 65536) % 1024)
                    :: decodeUtf8Go fuel r4
                else 65533 :: decodeUtf8Go fuel r3
            else 65533 :: decodeUtf8Go fuel r2
        else 65533 :: decodeUtf8Go fuel rest
    else 65533 :: decodeUtf8Go fuel rest

/-- The model of the utf-8 `buffer.toString` decoding (WHATWG decoding, as Node performs
it): well-formed sequences decode to UTF-16 code units (astral code points to
surrogate pairs), and each maximal invalid subpart is replaced by U+FFFD. -/
def decodeUtf8 (l : List Nat) : List Nat :=
  decodeUtf8Go (l.length + 1) l

/-- One block of a Textract `DetectDocumentText` response, restricted to the
fields the source reads. -/
structure TBlock where
  blockType : List Nat
  text : Option (List Nat)
deriving DecidableEq

/-- Truthiness of `b.Text` in JavaScript: present and non-empty. -/
def textTruthy : Option (List Nat) → Bool
  | none => false
  | some t => decide (t ≠ [])

def lineStr : String := "LINE"

/-- The model of `extractWithTextract` (source lines 366–377) applied to the
block list of the response: keep `LINE` blocks with truthy text, trim each line,
drop empties, join with single spaces. -/
def extractWithTextract (blocks : List TBlock) : List Nat :=
  List.intercalate [32]
    (((blocks.filter (fun b => b.blockType == strCodes lineStr && textTruthy b.text)).map
      (fun b => jsTrim (b.text.getD []))).filter (fun t => decide (t ≠ [])))

def noteStr : String := "note"

def fileStr : String := "file"

def briefStr : String := "brief"

def detailedStr : String := "detailed"

def bulletStr : String := "bullet"

def sentimentStr : String := "sentiment"

def technicalStr : String := "technical"

def pdfMagicStr : String := "%PDF"

def msgTypeContentStr : String := "type and content are required fields"

def msgFileKeyStr : String := "fileKey is required for file summarization"

def msgFetchPrefixStr : String := "Failed to fetch file: "

def msgInvalidTypeStr : String := "Invalid type. Must be \"note\" or \"file\""

def msgEmptyStr : String :=
  "Content is empty or invalid. PDF text extraction may have failed; try uploading a text file."

def msgNotReadableStr : String :=
  "Extracted text is not readable. Try converting the PDF to text or upload a clearer file."

def unreadableStr : String :=
  "Text not readable; PDF appears scanned or garbled. Please upload a clearer copy."

def unreadableWarnStr : String := "Unreadable text after extraction and cleaning"

def unableStr : String := "Unable to generate summary"

def modelIdStr : String := "amazon.titan-text-express-v1"

def bedrockSrcStr : String := "bedrock"

def fallbackSrcStr : String := "fallback"

def warnUnavailStr : String :=
  "Bedrock model unavailable or not permitted; using fallback summarizer"

def warnFallbackStr : String :=
  "AI summarization unavailable, using fallback summarizer"

def truncMarkerStr : String := "... (truncated)"

def promptBriefPre : String :=
  "You are summarizing a document for a busy user. Only use information explicitly present in the text; do NOT infer or invent topics. State what the document is (type/purpose) and its main topics. Ignore garbled text, random glyphs, or non-English bits. If content is unreadable or insufficient to know the topic, say \"Text not readable\".\n\nContent:\n"

def promptBriefPost : String :=
  "\n\nReturn: 2-3 sentences covering document type, subject, and key points based solely on the provided content."

def promptDetailedPre : String :=
  "You are summarizing a document for a busy user. Only use information explicitly present in the text; do NOT infer or invent topics. State what the document is (type/purpose), who it is for, and the main sections/steps. Ignore garbled text, random glyphs, or non-English bits. If content is unreadable or insufficient to know the topic, say \"Text not readable\".\n\nContent:\n"

def promptDetailedPost : String :=
  "\n\nReturn: 1 short paragraph plus 3-7 bullets of key points/sections derived only from the content."

def promptBulletPre : String :=
  "Summarize this document as concise English bullets describing what it is (type/purpose) and the main points/sections. Only use information explicitly present; do NOT invent topics. Ignore garbled text, random glyphs, or non-English bits. If content is unreadable or insufficient to know the topic, say \"Text not readable\".\n\nContent:\n"

def promptBulletPost : String :=
  "\n\nReturn: 5-8 bullets based solely on the content."

def promptSentimentPre : String :=
  "Summarize this document in English, focusing on its purpose and key points, then state the sentiment/tone if discernible from the text. Only use information explicitly present; do NOT invent topics. Ignore garbled text, random glyphs, or non-English bits. If content is unreadable or insufficient, say \"Text not readable\".\n\nContent:\n"

def promptSentimentPost : String :=
  "\n\nReturn: 2-3 sentences plus a tone label derived only from the content."

def promptTechnicalPre : String :=
  "Provide a technical English summary describing what the document is (type/purpose), the systems or components involved, and the main procedures/steps. Only use information explicitly present; do NOT invent topics. Ignore garbled text, random glyphs, or non-English bits. If content is unreadable or insufficient, say \"Text not readable\".\n\nContent:\n"

def promptTechnicalPost : String :=
  "\n\nReturn: 1 short paragraph plus 3-7 technical bullets derived only from the content."

/-- The prompt-template selection of source lines 184–192
(`prompts[summaryType]` with the brief template as default, the content
interpolated into the chosen template). -/
def buildPrompt (styp content : List Nat) : List Nat :=
  if styp = strCodes detailedStr then
    strCodes promptDetailedPre ++ content ++ strCodes promptDetailedPost
  else if styp = strCodes bulletStr then
    strCodes promptBulletPre ++ content ++ strCodes promptBulletPost
  else if styp = strCodes sentimentStr then
    strCodes promptSentimentPre ++ content ++ strCodes promptSentimentPost
  else if styp = strCodes technicalStr then
    strCodes promptTechnicalPre ++ content ++ strCodes promptTechnicalPost
  else strCodes promptBriefPre ++ content ++ strCodes promptBriefPost

/-- Outcome of the Bedrock `InvokeModel` call: an exception (timeout abort or
service error, `unavailable` distinguishing the two warning texts), or a
response whose `outputText` is the given string (the empty string standing for
a missing or empty field, both falsy). -/
inductive BedrockResp where
  | threw (unavailable : Bool)
  | ok (outputText : List Nat)
deriving DecidableEq

/-- Oracles for the four external collaborators of the handler. -/
structure Svc where
  s3 : List Nat → Option (List Nat)
  inflate : List Nat → Option (List Nat)
  textract : List Nat → Option (List TBlock)
  bedrock : List Nat → BedrockResp

/-- A parsed request body (source line 90); empty `rtype`/`content` model
missing or empty fields (both falsy), `summaryType = none` models an absent
field (defaulted to `brief`). -/
structure Req where
  rtype : List Nat
  content : List Nat
  fileKey : Option (List Nat)
  summaryType : Option (List Nat)
deriving DecidableEq

/-- The destructuring default of `summaryType` to the brief style. -/
def effSummaryType (req : Req) : List Nat :=
  req.summaryType.getD (strCodes briefStr)

/-- A response, with one field per JSON body key the source ever emits. -/
structure Res where
  statusCode : Nat
  summary : Option (List Nat)
  error : Option (List Nat)
  source : Option (List Nat)
  originalLength : Option Nat
  rtype : Option (List Nat)
  summaryType : Option (List Nat)
  model : Option (List Nat)
  warning : Option (List Nat)
deriving DecidableEq

/-- An error response carrying only an `error` message. -/
def errRes (code : Nat) (msg : List Nat) : Res :=
  ⟨code, none, some msg, none, none, none, none, none, none⟩

/-- The unreadable-content 200 response of source lines 167–175. -/
def unreadableRes : Res :=
  ⟨200, some (strCodes unreadableStr), none, some (strCodes fallbackSrcStr), none,
    none, none, none, some (strCodes unreadableWarnStr)⟩

/-- The Bedrock-success 200 response of source lines 231–242. -/
def bedrockOkRes (summary : List Nat) (olen : Nat) (rtype styp : List Nat) : Res :=
  ⟨200, some summary, none, some (strCodes bedrockSrcStr), some olen,
    some rtype, some styp, some (strCodes modelIdStr), none⟩

/-- The Bedrock-failure fallback 200 response of source lines 257–270. -/
def fallbackRes (summary : List Nat) (olen : Nat) (rtype styp : List Nat)
    (unavailable : Bool) : Res :=
  ⟨200, some summary, none, some (strCodes fallbackSrcStr), some olen,
    some rtype, some styp, none,
    some (if unavailable then strCodes warnUnavailStr else strCodes warnFallbackStr)⟩

/-- The result of the handler together with which external calls were made. -/
structure HOut where
  res : Res
  ocrCalled : Bool
  bedrockCalled : Bool
deriving DecidableEq

/-- Outcome of validation and content loading (source lines 93–136). -/
inductive LoadRes where
  | hardErr (code : Nat) (msg : List Nat)
  | loaded (text : List Nat) (fileBuf : Option (List Nat))
deriving DecidableEq

/-- Validation and content loading (source lines 93–136): field checks, then
the content of the note itself, or the S3 bytes extracted as PDF or decoded as UTF-8.
An S3 failure is reported with the fixed message prefix (the embedding does
not model the appended exception text). -/
def loadText (ext : Svc) (req : Req) : LoadRes :=
  if req.rtype = [] ∨ req.content = [] then .hardErr 400 (strCodes msgTypeContentStr)
  else if req.rtype = strCodes noteStr then .loaded req.content none
  else if req.rtype = strCodes fileStr then
    if (req.fileKey.getD []) = [] then .hardErr 400 (strCodes msgFileKeyStr)
    else
      match ext.s3 (req.fileKey.getD []) with
      | none => .hardErr 404 (strCodes msgFetchPrefixStr)
      | some buf =>
        .loaded
          (if buf.take 4 = strCodes pdfMagicStr then
            extractTextFromPdfBuffer ext.inflate buf
          else decodeUtf8 buf)
          (some buf)
  else .hardErr 400 (strCodes msgInvalidTypeStr)

/-- The OCR stage (source lines 144–158): on a file request with a buffer,
when the extracted text scores below 0.25 or its trimmed length is below 200,
call Textract; a thrown call or empty/whitespace OCR text leaves the text
unchanged.  The boolean reports whether Textract was called. -/
def ocrStage (ext : Svc) (isFile : Bool) (text : List Nat)
    (fbuf : Option (List Nat)) : List Nat × Bool :=
  match fbuf with
  | none => (text, false)
  | some buf =>
    if isFile then
      if (scoreTextQuality text).score < 0.25 ∨ (jsTrim text).length < 200 then
        match ext.textract buf with
        | none => (text, true)
        | some blocks =>
          if extractWithTextract blocks ≠ [] ∧ jsTrim (extractWithTextract blocks) ≠ [] then
            (extractWithTextract blocks, true)
          else (text, true)
      else (text, false)
    else (text, false)

/-- The truncation stage (source lines 179–181): cap at 6,000 characters and
append the truncation marker `truncMarkerStr`. -/
def truncateContent (s : List Nat) : List Nat :=
  if 6000 < s.length then s.take 6000 ++ strCodes truncMarkerStr else s

/-- The sentence list of the Bedrock-failure fallback (source line 248):
split on `[.!?]+` runs and keep fragments whose trimmed length exceeds 10. -/
def bedrockSentences (t : List Nat) : List (List Nat) :=
  (jsSplitRuns isPunctB t).filter (fun fr => decide (10 < (jsTrim fr).length))

/-- The Bedrock-failure fallback summary (source line 249): the first
`max(1, ceil(n/3))` sentences joined with a dot and a space, trimmed, with a
dot appended. -/
def bedrockFallbackSummary (t : List Nat) : List Nat :=
  jsTrim (List.intercalate [46, 32]
    ((bedrockSentences t).take (max 1 (((bedrockSentences t).length + 2) / 3)))) ++ [46]

/-- The sentence count selected by the fallback of the second (OpenAI)
handler variant, source line 654: `Math.min(Math.max(2, Math.ceil(n / 4)), 5)`. -/
def openAiFallbackCount (n : Nat) : Nat :=
  min (max 2 ((n + 3) / 4)) 5

/-- Sanitization, quality gate, truncation and the Bedrock call with its
fallback (source lines 160–271), given the post-OCR text. -/
def gateAndSummarize (ext : Svc) (req : Req) (textIn : List Nat) (ocrC : Bool) : HOut :=
  let s := sanitizeText textIn
  if s = [] ∨ jsTrim s = [] then ⟨errRes 400 (strCodes msgNotReadableStr), ocrC, false⟩
  else if (scoreTextQuality s).score < 0.10 ∨ (jsSplitRuns isWsB s).length < 10 then
    ⟨unreadableRes, ocrC, false⟩
  else
    let sent := truncateContent s
    match ext.bedrock (buildPrompt (effSummaryType req) sent) with
    | .ok out =>
      ⟨bedrockOkRes (if out = [] then strCodes unableStr else out) sent.length
        req.rtype (effSummaryType req), ocrC, true⟩
    | .threw unavailable =>
      ⟨fallbackRes (bedrockFallbackSummary sent) sent.length req.rtype
        (effSummaryType req) unavailable, ocrC, true⟩

/-- The model of the summarize handler (first variant, source lines 21–292),
from the parsed request body on.  HTTP method dispatch, CORS and metrics are
external plumbing; the outer catch of lines 273–291 is unreachable in this
total model. -/
def handler (ext : Svc) (req : Req) : HOut :=
  match loadText ext req with
  | .hardErr c m => ⟨errRes c m, false, false⟩
  | .loaded text fbuf =>
    if jsTrim text = [] then ⟨errRes 400 (strCodes msgEmptyStr), false, false⟩
    else
      gateAndSummarize ext req
        (ocrStage ext (req.rtype = strCodes fileStr) text fbuf).1
        (ocrStage ext (req.rtype = strCodes fileStr) text fbuf).2

/-- The text interpolated into the prompt and measured by `originalLength`:
the sanitized, possibly truncated text, defined when the request reaches the
summarizing stage. -/
def textSentToModel (ext : Svc) (req : Req) : Option (List Nat) :=
  match loadText ext req with
  | .hardErr _ _ => none
  | .loaded text fbuf =>
    if jsTrim text = [] then none
    else
      let s := sanitizeText (ocrStage ext (req.rtype = strCodes fileStr) text fbuf).1
      if s = [] ∨ jsTrim s = [] then none
      else if (scoreTextQuality s).score < 0.10 ∨ (jsSplitRuns isWsB s).length < 10 then none
      else some (truncateContent s)

/-- An oracle assignment on which every external call fails: S3 misses, no
stream inflates, Textract throws, Bedrock aborts. -/
def extTriv : Svc :=
  ⟨fun _ => none, fun _ => none, fun _ => none, fun _ => BedrockResp.threw true⟩

def c9content : String := "Buy milk. Call Alice. Finish report."

def reqC9 : Req := ⟨strCodes noteStr, strCodes c9content, none, some (strCodes bulletStr)⟩

def c1cexStr : String := "???"

def reqC1cex : Req := ⟨strCodes noteStr, strCodes c1cexStr, none, none⟩

def c2cexStr : String := "12345"

def reqC2cex : Req := ⟨strCodes noteStr, strCodes c2cexStr, none, none⟩

def bufC3 : List Nat := List.replicate 150 97 ++ List.replicate 100 32

def extC3 : Svc :=
  ⟨fun _ => some bufC3, fun _ => none, fun _ => none, fun _ => BedrockResp.threw false⟩

def contentX : String := "x"

def fileKeyC3 : String := "k"

def reqC3cex : Req := ⟨strCodes fileStr, strCodes contentX, some (strCodes fileKeyC3), none⟩

def c1wStr : String := "hello world"

def reqC1w : Req := ⟨strCodes noteStr, strCodes c1wStr, none, none⟩

def c2wStr : String := "aaaa"

def reqC2w : Req := ⟨strCodes noteStr, strCodes c2wStr, none, none⟩

/-- Direct word counter: the number of maximal non-separator runs, tracked
with an in-word flag. -/
def wordsAuxP (p : Nat → Bool) : Bool → List Nat → Nat
  | _, [] => 0
  | inw, c :: rest =>
    if p c then wordsAuxP p false rest
    else (if inw then 0 else 1) + wordsAuxP p true rest

def c6aStr : String := "a"

def c6bStr : String := " a"

def c8tok : String := "abcdefghijk. "

def c8content : List Nat := (List.replicate 18 (strCodes c8tok)).flatten

def reqC8cex : Req := ⟨strCodes noteStr, c8content, none, none⟩

def c8wStr : String :=
  "The quick brown fox jumps over the lazy dog today. It is a very fine morning outside my friends."

def reqC8w : Req := ⟨strCodes noteStr, strCodes c8wStr, none, none⟩

/-- Splitting at every non-printable byte, the description of the raw scan given in the specification: the non-empty pieces are exactly the maximal printable runs. -/
def splitNP : List Nat → List (List Nat)
  | [] => [[]]
  | c :: rest =>
    if isPrintableB c then
      match splitNP rest with
      | p :: ps => (c :: p) :: ps
      | [] => [[c]]
    else [] :: splitNP rest

def c7wStr : String := "hello, world!"

/-- Well-spaced strings: every whitespace character is the single space and
never follows another whitespace character (the flag records whether the
previous character was whitespace).  Such strings are fixed points of
whitespace-run collapsing. -/
def okSpaced : Bool → List Nat → Prop
  | _, [] => True
  | prevWs, c :: rest =>
    (isWsB c = true → (c = 32 ∧ prevWs = false)) ∧ okSpaced (isWsB c) rest

/-- A good token: non-empty, printable, and free of the space separator. -/
def goodTok (tok : List Nat) : Prop :=
  tok ≠ [] ∧ (∀ c ∈ tok, isPrintableB c = true) ∧ 32 ∉ tok

def c4wStr : String := "tidy room"

def abBlock : List Nat := [97, 98]

/-- The counterexample family: n copies of the token `"ab"` joined by single
spaces. -/
def interAB (n : Nat) : List Nat :=
  List.intercalate [32] (List.replicate n abBlock)

/-- The truncated shape: n copies of `"ab "`. -/
def flatAB (n : Nat) : List Nat :=
  (List.replicate n [97, 98, 32]).flatten

/-- Explicit form of the composite score. -/
lemma score_spec (t : List Nat) :
    (scoreTextQuality t).score =
      0.5 * ((t.countP isLetterB : ℚ) / ((if t.length = 0 then 1 else t.length : Nat) : ℚ))
      + 0.3 * (if 0 < t.countP isLetterB then
          (t.countP isVowelB : ℚ) / (t.countP isLetterB : ℚ) else 0)
      + 0.2 * min ((((jsSplitRuns isWsB t).filter (fun x => decide (x ≠ []))).length : ℚ) / 80) 1 :=
  rfl

/-- Every ASCII vowel is an ASCII letter. -/
lemma vowel_letter {c : Nat} (h : isVowelB c = true) : isLetterB c = true := by
  simp only [isVowelB, Bool.or_eq_true, beq_iff_eq] at h
  rcases h with ((((((((rfl | rfl) | rfl) | rfl) | rfl) | rfl) | rfl) | rfl) | rfl) | rfl <;> decide

unseal Rat.add Rat.mul Rat.ofScientific Rat.inv Rat.sub in
/-- C5.  For every string the quality score lies in `[0, 1]`, and the score of
the empty string is exactly `0`. -/
theorem c5_score_bounds :
    (∀ t : List Nat, 0 ≤ (scoreTextQuality t).score ∧ (scoreTextQuality t).score ≤ 1)
    ∧ (scoreTextQuality []).score = 0 := by
  constructor
  · intro t
    have h0 : (0 : ℚ) < ((if t.length = 0 then 1 else t.length : Nat) : ℚ) := by
      split
      · norm_num
      · rename_i h
        exact_mod_cast Nat.pos_of_ne_zero h
    have hletters : ((t.countP isLetterB : Nat) : ℚ)
        ≤ ((if t.length = 0 then 1 else t.length : Nat) : ℚ) := by
      split
      · rename_i h
        rw [List.length_eq_zero] at h
        subst h
        simp
      · exact_mod_cast List.countP_le_length isLetterB
    have hvow : (t.countP isVowelB) ≤ (t.countP isLetterB) :=
      List.countP_mono_left (fun c _ h => vowel_letter h)
    have hLR0 : (0 : ℚ) ≤ (t.countP isLetterB : ℚ) / ((if t.length = 0 then 1 else t.length : Nat) : ℚ) :=
      div_nonneg (by positivity) (le_of_lt h0)
    have hLR1 : (t.countP isLetterB : ℚ) / ((if t.length = 0 then 1 else t.length : Nat) : ℚ) ≤ 1 :=
      (div_le_one h0).mpr hletters
    have hVR0 : (0 : ℚ) ≤ (if 0 < t.countP isLetterB then
        (t.countP isVowelB : ℚ) / (t.countP isLetterB : ℚ) else 0) := by
      split
      · positivity
      · norm_num
    have hVR1 : (if 0 < t.countP isLetterB then
        (t.countP isVowelB : ℚ) / (t.countP isLetterB : ℚ) else 0) ≤ 1 := by
      split
      · rename_i h
        exact (div_le_one (by exact_mod_cast h)).mpr (by exact_mod_cast hvow)
      · norm_num
    have hWS0 : (0 : ℚ) ≤ min ((((jsSplitRuns isWsB t).filter
        (fun x => decide (x ≠ []))).length : ℚ) / 80) 1 :=
      le_min (by positivity) zero_le_one
    have hWS1 : min ((((jsSplitRuns isWsB t).filter
        (fun x => decide (x ≠ []))).length : ℚ) / 80) 1 ≤ 1 :=
      min_le_right _ _
    rw [score_spec]
    constructor <;> linarith
  · decide

unseal Rat.add Rat.mul Rat.ofScientific Rat.inv Rat.sub in
/-- C9 (amended).  The scenario `{type: note, content: "Buy milk. Call Alice.
Finish report.", summaryType: bullet}` hits the unreadable-content gate (its
sanitized text has 6 < 10 whitespace-delimited tokens), so for every oracle
assignment the handler returns the unreadable 200 fallback response, with no
OCR and no generative call: no sentence join occurs. -/
theorem c9_scenario_gate (ext : Svc) : handler ext reqC9 = ⟨unreadableRes, false, false⟩ := by
  have h1 : loadText ext reqC9 = .loaded (strCodes c9content) none := rfl
  have h2 : ¬ (jsTrim (strCodes c9content) = []) := by decide
  have h3 : ocrStage ext (reqC9.rtype = strCodes fileStr) (strCodes c9content) none
      = (strCodes c9content, false) := rfl
  have h4 : ¬ (sanitizeText (strCodes c9content) = [] ∨
      jsTrim (sanitizeText (strCodes c9content)) = []) := by decide
  have h5 : (scoreTextQuality (sanitizeText (strCodes c9content))).score < 0.10 ∨
      (jsSplitRuns isWsB (sanitizeText (strCodes c9content))).length < 10 := by decide
  simp only [handler, h1, h3, if_neg h2, gateAndSummarize, if_neg h4, if_pos h5]

unseal Rat.add Rat.mul Rat.ofScientific Rat.inv Rat.sub in
/-- C9 is false as stated: on the scenario input with the generative
collaborator unavailable, the summary is the unreadable-content message, not
the join of the three sentences (which would be the content itself). -/
theorem c9_scenario_cex :
    (handler extTriv reqC9).res.summary = some (strCodes unreadableStr) ∧
    strCodes unreadableStr ≠ strCodes c9content := by
  decide

unseal Rat.add Rat.mul Rat.ofScientific Rat.inv Rat.sub in
/-- C1 is false as stated: the note request with content `"???"` has its
content present (bytes loaded), yet the handler returns a hard 400 response,
because the sanitized text is empty. -/
theorem c1_hard_error_after_load_cex :
    loadText extTriv reqC1cex = .loaded (strCodes c1cexStr) none ∧
    (handler extTriv reqC1cex).res.statusCode = 400 := by
  decide

unseal Rat.add Rat.mul Rat.ofScientific Rat.inv Rat.sub in
/-- C2 is false as stated: the note request with content `"12345"` sanitizes
to the empty string, whose score `0 < 0.10` satisfies the hypothesis of the claim,
yet the handler returns a hard 400 response with no `source` field rather than
a 200 fallback. -/
theorem c2_unreadable_gate_cex :
    ((scoreTextQuality (sanitizeText (strCodes c2cexStr))).score < 0.10 ∨
      (jsSplitRuns isWsB (sanitizeText (strCodes c2cexStr))).length < 10) ∧
    (handler extTriv reqC2cex).res.statusCode = 400 ∧
    (handler extTriv reqC2cex).res.source = none := by
  decide

unseal Rat.add Rat.mul Rat.ofScientific Rat.inv Rat.sub in
/-- C3 is false as stated: for the file whose bytes decode to 150 letters
followed by 100 spaces, the extracted text has raw length 250 ≥ 200 and score
≥ 0.25, so the claim predicts no OCR call, yet the handler invokes the OCR
adapter (the source tests the trimmed length, 150 < 200). -/
theorem c3_ocr_trigger_cex :
    (handler extC3 reqC3cex).ocrCalled = true ∧
    ¬ ((scoreTextQuality (decodeUtf8 bufC3)).score < 0.25 ∨ (decodeUtf8 bufC3).length < 200) := by
  decide

/-- The OCR-call flag is carried unchanged through the gate-and-summarize
stage. -/
lemma gate_ocrCalled (ext : Svc) (req : Req) (t : List Nat) (oc : Bool) :
    (gateAndSummarize ext req t oc).ocrCalled = oc := by
  simp only [gateAndSummarize]
  split
  · rfl
  · split
    · rfl
    · split <;> rfl

/-- C1 (amended).  Once loading has produced text, every path of the handler
returns either a 200 response or one of the two 400 validation responses for
empty or unreadable-after-sanitization text. -/
theorem c1_no_hard_error_after_sanitize (ext : Svc) (req : Req) (text : List Nat)
    (fbuf : Option (List Nat)) (h : loadText ext req = .loaded text fbuf) :
    (handler ext req).res.statusCode = 200 ∨
    ((handler ext req).res.statusCode = 400 ∧
      ((handler ext req).res.error = some (strCodes msgEmptyStr) ∨
        (handler ext req).res.error = some (strCodes msgNotReadableStr))) := by
  simp only [handler, gateAndSummarize, h]
  split
  · right
    exact ⟨rfl, Or.inl rfl⟩
  · split
    · right
      exact ⟨rfl, Or.inr rfl⟩
    · split
      · left
        rfl
      · split
        · left
          rfl
        · left
          rfl

/-- Witness for C1 at the note request with content `"hello world"`. -/
theorem c1_no_hard_error_after_sanitize_witness :
    loadText extTriv reqC1w = .loaded (strCodes c1wStr) none ∧
    ((handler extTriv reqC1w).res.statusCode = 200 ∨
      ((handler extTriv reqC1w).res.statusCode = 400 ∧
        ((handler extTriv reqC1w).res.error = some (strCodes msgEmptyStr) ∨
          (handler extTriv reqC1w).res.error = some (strCodes msgNotReadableStr)))) :=
  ⟨by decide, c1_no_hard_error_after_sanitize extTriv reqC1w (strCodes c1wStr) none (by decide)⟩

/-- C2 (amended).  A request reaching the quality gate with non-empty
sanitized text scoring below 0.10 or having fewer than 10 whitespace-delimited
tokens yields the unreadable 200 fallback, with no generative call. -/
theorem c2_unreadable_gate (ext : Svc) (req : Req) (text : List Nat)
    (fbuf : Option (List Nat)) (h : loadText ext req = .loaded text fbuf)
    (h1 : ¬ jsTrim text = [])
    (h2 : ¬ (sanitizeText (ocrStage ext (req.rtype = strCodes fileStr) text fbuf).1 = [] ∨
        jsTrim (sanitizeText (ocrStage ext (req.rtype = strCodes fileStr) text fbuf).1) = []))
    (h3 : (scoreTextQuality (sanitizeText
          (ocrStage ext (req.rtype = strCodes fileStr) text fbuf).1)).score < 0.10 ∨
        (jsSplitRuns isWsB (sanitizeText
          (ocrStage ext (req.rtype = strCodes fileStr) text fbuf).1)).length < 10) :
    (handler ext req).res.statusCode = 200 ∧
    (handler ext req).res.source = some (strCodes fallbackSrcStr) ∧
    (handler ext req).res.summary = some (strCodes unreadableStr) ∧
    (handler ext req).bedrockCalled = false := by
  simp only [handler, gateAndSummarize, h, if_neg h1, if_neg h2, if_pos h3]
  simp [unreadableRes]

/-- Witness for C2 at the note request with content `"aaaa"` (one token). -/
theorem c2_unreadable_gate_witness :
    (jsSplitRuns isWsB (sanitizeText
        (ocrStage extTriv (reqC2w.rtype = strCodes fileStr) (strCodes c2wStr) none).1)).length < 10 ∧
    ((handler extTriv reqC2w).res.statusCode = 200 ∧
      (handler extTriv reqC2w).res.source = some (strCodes fallbackSrcStr) ∧
      (handler extTriv reqC2w).res.summary = some (strCodes unreadableStr) ∧
      (handler extTriv reqC2w).bedrockCalled = false) :=
  ⟨by decide, c2_unreadable_gate extTriv reqC2w (strCodes c2wStr) none (by decide) (by decide)
    (by decide) (Or.inr (by decide))⟩

/-- The trim of a string is empty exactly when everything in it is
whitespace. -/
lemma jsTrim_eq_nil_iff (l : List Nat) : jsTrim l = [] ↔ ∀ c ∈ l, isWsB c = true := by
  simp only [jsTrim, List.reverse_eq_nil_iff, List.dropWhile_eq_nil_iff, List.mem_reverse]
  constructor
  · intro h c hc
    rw [← (show List.takeWhile isWsB l ++ List.dropWhile isWsB l = l from
      List.takeWhile_append_dropWhile isWsB l)] at hc
    rcases List.mem_append.mp hc with hc | hc
    · exact List.mem_takeWhile_imp hc
    · exact h c hc
  · intro h c hc
    exact h c ((List.dropWhile_suffix isWsB).sublist.subset hc)

/-- A non-empty trimmed string contains a non-whitespace character (its
head, exposed on the reversed side of the trim). -/
lemma jsTrim_has_non_ws (l : List Nat) (h : jsTrim l ≠ []) :
    ∃ c ∈ jsTrim l, isWsB c = false := by
  unfold jsTrim at h ⊢
  have hne : ((l.dropWhile isWsB).reverse.dropWhile isWsB) ≠ [] := by
    intro h0
    apply h
    rw [h0]
    rfl
  refine ⟨((l.dropWhile isWsB).reverse.dropWhile isWsB).head hne, ?_, ?_⟩
  · rw [List.mem_reverse]
    exact List.head_mem hne
  · exact List.head_dropWhile_not isWsB (l.dropWhile isWsB).reverse hne

/-- The intercalation over a non-empty list starts with the first piece. -/
lemma intercalate_cons_shape (sep p : List Nat) (ps : List (List Nat)) :
    ∃ r, List.intercalate sep (p :: ps) = p ++ r := by
  cases ps with
  | nil => exact ⟨[], by simp [List.intercalate]⟩
  | cons q t => exact ⟨sep ++ List.intercalate sep (q :: t), by simp [List.intercalate]⟩

/-- A non-empty Textract extraction does not trim to the empty string: every
kept line is trimmed and non-empty, so the join contains a non-whitespace
character. -/
lemma extractWithTextract_trim_ne (blocks : List TBlock)
    (h : extractWithTextract blocks ≠ []) : jsTrim (extractWithTextract blocks) ≠ [] := by
  rw [Ne, jsTrim_eq_nil_iff]
  intro hall
  unfold extractWithTextract at h hall
  rcases hp : ((blocks.filter (fun b => b.blockType == strCodes lineStr && textTruthy b.text)).map
      (fun b => jsTrim (b.text.getD []))).filter (fun t => decide (t ≠ [])) with _ | ⟨p, ps⟩
  · rw [hp] at h
    exact h rfl
  · rw [hp] at hall
    have hpmem : p ∈ ((blocks.filter
        (fun b => b.blockType == strCodes lineStr && textTruthy b.text)).map
        (fun b => jsTrim (b.text.getD []))).filter (fun t => decide (t ≠ [])) := by
      rw [hp]
      exact List.mem_cons_self p ps
    have hpne : p ≠ [] := by
      have := List.of_mem_filter hpmem
      simpa using this
    have hptrim : ∃ q, p = jsTrim q := by
      rcases List.mem_map.mp (List.mem_of_mem_filter hpmem) with ⟨b, _, hb⟩
      exact ⟨b.text.getD [], hb.symm⟩
    rcases hptrim with ⟨q, rfl⟩
    rcases jsTrim_has_non_ws q hpne with ⟨c, hc, hcws⟩
    rcases intercalate_cons_shape [32] (jsTrim q) ps with ⟨r, hr⟩
    have hcmem : c ∈ List.intercalate [32] (jsTrim q :: ps) := by
      rw [hr]
      exact List.mem_append.mpr (Or.inl hc)
    rw [hall c hcmem] at hcws
    exact Bool.noConfusion hcws

/-- The OCR stage reports a call exactly when the trigger condition holds. -/
lemma ocrStage_snd (ext : Svc) (text buf : List Nat) :
    (ocrStage ext true text (some buf)).2
      = decide ((scoreTextQuality text).score < 0.25 ∨ (jsTrim text).length < 200) := by
  by_cases ht : ((scoreTextQuality text).score < 0.25 ∨ (jsTrim text).length < 200)
  · rcases htr : ext.textract buf with _ | blocks
    · simp [ocrStage, ht, htr]
    · simp only [ocrStage, if_true, if_pos ht, htr]
      split <;> simp [ht]
  · simp [ocrStage, ht]

/-- The OCR stage leaves the text unchanged unless the trigger fired and
Textract returned non-empty text. -/
lemma ocrStage_fst_unchanged (ext : Svc) (text buf : List Nat)
    (hcase : ext.textract buf = none ∨
      ∃ blocks, ext.textract buf = some blocks ∧ extractWithTextract blocks = []) :
    (ocrStage ext true text (some buf)).1 = text := by
  by_cases ht : ((scoreTextQuality text).score < 0.25 ∨ (jsTrim text).length < 200)
  · rcases hcase with htr | ⟨blocks, htr, hemp⟩
    · simp [ocrStage, ht, htr]
    · simp [ocrStage, ht, htr, hemp]
  · simp [ocrStage, ht]

/-- When the trigger fired and Textract returned non-empty text, that text
replaces the extracted text. -/
lemma ocrStage_fst_replaced (ext : Svc) (text buf : List Nat)
    (ht : (scoreTextQuality text).score < 0.25 ∨ (jsTrim text).length < 200)
    (blocks : List TBlock) (htr : ext.textract buf = some blocks)
    (hne : extractWithTextract blocks ≠ []) :
    (ocrStage ext true text (some buf)).1 = extractWithTextract blocks := by
  simp [ocrStage, ht, htr, hne, extractWithTextract_trim_ne blocks hne]

/-- C3 (amended).  For a file request whose extracted text passed the
emptiness check: the OCR adapter is invoked exactly when the text scores below
0.25 or its trimmed length is below 200; the post-OCR text is what reaches the
sanitization stage; a thrown or empty OCR result leaves the pre-OCR text in
place; a non-empty OCR result replaces it. -/
theorem c3_ocr_trigger (ext : Svc) (req : Req) (text buf : List Nat)
    (hf : req.rtype = strCodes fileStr)
    (h : loadText ext req = .loaded text (some buf))
    (h1 : ¬ jsTrim text = []) :
    ((handler ext req).ocrCalled = true ↔
      ((scoreTextQuality text).score < 0.25 ∨ (jsTrim text).length < 200)) ∧
    handler ext req = gateAndSummarize ext req
      (ocrStage ext true text (some buf)).1 (ocrStage ext true text (some buf)).2 ∧
    (ext.textract buf = none → (ocrStage ext true text (some buf)).1 = text) ∧
    (∀ blocks, ext.textract buf = some blocks → extractWithTextract blocks = [] →
      (ocrStage ext true text (some buf)).1 = text) ∧
    (((scoreTextQuality text).score < 0.25 ∨ (jsTrim text).length < 200) →
      ∀ blocks, ext.textract buf = some blocks → extractWithTextract blocks ≠ [] →
        (ocrStage ext true text (some buf)).1 = extractWithTextract blocks) := by
  have hd : (decide (req.rtype = strCodes fileStr)) = true := decide_eq_true hf
  have hh : handler ext req = gateAndSummarize ext req
      (ocrStage ext true text (some buf)).1 (ocrStage ext true text (some buf)).2 := by
    simp only [handler, h, if_neg h1, hd]
  refine ⟨?_, hh, ?_, ?_, ?_⟩
  · rw [hh, gate_ocrCalled, ocrStage_snd]
    simp
  · intro htr
    exact ocrStage_fst_unchanged ext text buf (Or.inl htr)
  · intro blocks htr hemp
    exact ocrStage_fst_unchanged ext text buf (Or.inr ⟨blocks, htr, hemp⟩)
  · intro ht blocks htr hne
    exact ocrStage_fst_replaced ext text buf ht blocks htr hne

/-- Witness for C3 at the 150-letters-plus-100-spaces file request. -/
theorem c3_ocr_trigger_witness :
    (¬ jsTrim (decodeUtf8 bufC3) = []) ∧
    ((handler extC3 reqC3cex).ocrCalled = true ↔
      ((scoreTextQuality (decodeUtf8 bufC3)).score < 0.25 ∨
        (jsTrim (decodeUtf8 bufC3)).length < 200)) :=
  ⟨by decide,
    (c3_ocr_trigger extC3 reqC3cex (decodeUtf8 bufC3) bufC3 (by decide) (by decide) (by decide)).1⟩

/-- The number of non-empty pieces produced by the split worker equals the
direct word count (plus one for a piece already being accumulated).  The
hypothesis records the invariant of the worker that inside a separator run the
accumulator is empty. -/
lemma jsSplitAux_count (p : Nat → Bool) :
    ∀ (l : List Nat) (sep : Bool) (cur : List Nat), (sep = true → cur = []) →
    ((jsSplitAux p sep cur l).filter (fun t => decide (t ≠ []))).length
      = (if cur = [] then 0 else 1) + wordsAuxP p (cur ≠ []) l := by
  intro l
  induction l with
  | nil =>
    intro sep cur _
    rcases cur with _ | ⟨c, cs⟩ <;> simp [jsSplitAux, wordsAuxP]
  | cons c rest ih =>
    intro sep cur hinv
    by_cases hp : p c = true
    · have ihx := ih true [] (fun _ => rfl)
      cases sep with
      | true =>
        have hcur : cur = [] := hinv rfl
        subst hcur
        simp only [jsSplitAux, hp, if_true, wordsAuxP]
        simp at ihx ⊢
        omega
      | false =>
        simp only [jsSplitAux, hp, if_true, Bool.false_eq_true, if_false, wordsAuxP,
          List.filter_cons]
        rcases cur with _ | ⟨d, ds⟩ <;> simp [hp] at ihx ⊢ <;> omega
    · have ihx := ih false (c :: cur) (by simp)
      simp only [jsSplitAux, hp, if_false, Bool.false_eq_true, wordsAuxP]
      rcases cur with _ | ⟨d, ds⟩ <;> simp [hp] at ihx ⊢ <;> omega

/-- The word count of the quality scorer is the direct word count. -/
lemma words_eq_wordsAux (l : List Nat) :
    ((jsSplitRuns isWsB l).filter (fun t => decide (t ≠ []))).length
      = wordsAuxP isWsB false l := by
  have h := jsSplitAux_count isWsB l false [] (by simp)
  simpa [jsSplitRuns] using h

/-- An all-separator string has direct word count zero. -/
lemma wordsAuxP_all_sep (p : Nat → Bool) :
    ∀ (l : List Nat), (∀ c ∈ l, p c = true) → ∀ b, wordsAuxP p b l = 0 := by
  intro l
  induction l with
  | nil => intro _ b; rfl
  | cons c rest ih =>
    intro h b
    simp only [wordsAuxP, h c (List.mem_cons_self c rest), if_true]
    exact ih (fun d hd => h d (List.mem_cons_of_mem c hd)) false

/-- Leading separators do not change the direct word count (from the
out-of-word state). -/
lemma wordsAuxP_sep_lead (p : Nat → Bool) :
    ∀ (pre : List Nat), (∀ c ∈ pre, p c = true) →
    ∀ (l : List Nat), wordsAuxP p false (pre ++ l) = wordsAuxP p false l := by
  intro pre
  induction pre with
  | nil => intro _ l; rfl
  | cons c rest ih =>
    intro h l
    simp only [List.cons_append, wordsAuxP, h c (List.mem_cons_self c rest), if_true]
    exact ih (fun d hd => h d (List.mem_cons_of_mem c hd)) l

/-- Trailing separators do not change the direct word count. -/
lemma wordsAuxP_sep_suffix (p : Nat → Bool) :
    ∀ (l post : List Nat), (∀ c ∈ post, p c = true) →
    ∀ b, wordsAuxP p b (l ++ post) = wordsAuxP p b l := by
  intro l
  induction l with
  | nil =>
    intro post h b
    rw [List.nil_append]
    exact wordsAuxP_all_sep p post h b
  | cons c rest ih =>
    intro post h b
    by_cases hp : p c = true
    · simp only [List.cons_append, wordsAuxP, hp, if_true]
      exact ih post h false
    · simp only [List.cons_append, wordsAuxP, hp, if_false, Bool.false_eq_true]
      rw [show rest.append post = rest ++ post from rfl, ih post h true]

/-- Whitespace characters are not ASCII letters. -/
lemma ws_not_letter {c : Nat} (h : isWsB c = true) : isLetterB c = false := by
  cases hl : isLetterB c
  · rfl
  · exfalso
    simp only [isLetterB, Bool.or_eq_true, Bool.and_eq_true, decide_eq_true_eq] at hl
    simp only [isWsB, Bool.or_eq_true, Bool.and_eq_true, beq_iff_eq, decide_eq_true_eq] at h
    omega

/-- Whitespace characters are not ASCII vowels. -/
lemma ws_not_vowel {c : Nat} (h : isWsB c = true) : isVowelB c = false := by
  cases hv : isVowelB c
  · rfl
  · exact Bool.noConfusion ((vowel_letter hv).symm.trans (ws_not_letter h))

unseal Rat.add Rat.mul Rat.ofScientific Rat.inv Rat.sub in
/-- C6 is false as stated: prepending a single space changes the score,
because the letters-ratio divides by the padded length. -/
theorem c6_score_ws_invariance_cex :
    strCodes c6bStr = [32] ++ strCodes c6aStr ∧ isWsB 32 = true ∧
    (scoreTextQuality (strCodes c6bStr)).score ≠ (scoreTextQuality (strCodes c6aStr)).score := by
  decide

/-- C6 (amended).  Padding a string with leading and trailing whitespace never
increases its quality score and leaves the word count unchanged. -/
theorem c6_score_ws_padding_le (t pre post : List Nat)
    (hpre : ∀ c ∈ pre, isWsB c = true) (hpost : ∀ c ∈ post, isWsB c = true) :
    (scoreTextQuality (pre ++ t ++ post)).score ≤ (scoreTextQuality t).score ∧
    (scoreTextQuality (pre ++ t ++ post)).words = (scoreTextQuality t).words := by
  have hL : (pre ++ t ++ post).countP isLetterB = t.countP isLetterB := by
    simp only [List.countP_append]
    have h1 : pre.countP isLetterB = 0 :=
      List.countP_eq_zero.mpr (fun a ha => by simp [ws_not_letter (hpre a ha)])
    have h2 : post.countP isLetterB = 0 :=
      List.countP_eq_zero.mpr (fun a ha => by simp [ws_not_letter (hpost a ha)])
    omega
  have hV : (pre ++ t ++ post).countP isVowelB = t.countP isVowelB := by
    simp only [List.countP_append]
    have h1 : pre.countP isVowelB = 0 :=
      List.countP_eq_zero.mpr (fun a ha => by simp [ws_not_vowel (hpre a ha)])
    have h2 : post.countP isVowelB = 0 :=
      List.countP_eq_zero.mpr (fun a ha => by simp [ws_not_vowel (hpost a ha)])
    omega
  have hW : ((jsSplitRuns isWsB (pre ++ t ++ post)).filter (fun x => decide (x ≠ []))).length
      = ((jsSplitRuns isWsB t).filter (fun x => decide (x ≠ []))).length := by
    rw [words_eq_wordsAux, words_eq_wordsAux, List.append_assoc,
      wordsAuxP_sep_lead isWsB pre hpre, wordsAuxP_sep_suffix isWsB t post hpost]
  have hwords : (scoreTextQuality (pre ++ t ++ post)).words = (scoreTextQuality t).words := by
    show ((jsSplitRuns isWsB (pre ++ t ++ post)).filter (fun x => decide (x ≠ []))).length
      = ((jsSplitRuns isWsB t).filter (fun x => decide (x ≠ []))).length
    exact hW
  refine ⟨?_, hwords⟩
  rw [score_spec, score_spec, hL, hV, hW]
  have hTnat : (if t.length = 0 then 1 else t.length)
      ≤ (if (pre ++ t ++ post).length = 0 then 1 else (pre ++ t ++ post).length) := by
    have : t.length ≤ (pre ++ t ++ post).length := by simp; omega
    split <;> split <;> omega
  have hT0 : (0 : ℚ) < ((if t.length = 0 then 1 else t.length : Nat) : ℚ) := by
    split
    · norm_num
    · rename_i hh
      exact_mod_cast Nat.pos_of_ne_zero hh
  have hdiv : ((t.countP isLetterB : Nat) : ℚ)
        / ((if (pre ++ t ++ post).length = 0 then 1 else (pre ++ t ++ post).length : Nat) : ℚ)
      ≤ ((t.countP isLetterB : Nat) : ℚ)
        / ((if t.length = 0 then 1 else t.length : Nat) : ℚ) := by
    gcongr
  linarith

/-- Witness for C6: padding `"a"` with one leading space. -/
theorem c6_score_ws_padding_le_witness :
    (∀ c ∈ ([32] : List Nat), isWsB c = true) ∧
    ((scoreTextQuality ([32] ++ [97] ++ [])).score ≤ (scoreTextQuality [97]).score ∧
      (scoreTextQuality ([32] ++ [97] ++ [])).words = (scoreTextQuality [97]).words) :=
  ⟨by decide, c6_score_ws_padding_le [97] [32] [] (by decide) (by decide)⟩

unseal Rat.add Rat.mul Rat.ofScientific Rat.inv Rat.sub in
/-- C8 is false as stated: with 18 sentence fragments the Bedrock-variant
fallback selects `max(1, ceil(18/3)) = 6 > 5` of them — the summary differs
from the five-fragment join, so the selection is not bounded by 5. -/
theorem c8_fallback_bound_cex :
    (handler extTriv reqC8cex).res.summary
      = some (bedrockFallbackSummary (sanitizeText c8content)) ∧
    (bedrockSentences (sanitizeText c8content)).length = 18 ∧
    max 1 (((bedrockSentences (sanitizeText c8content)).length + 2) / 3) = 6 ∧
    bedrockFallbackSummary (sanitizeText c8content)
      ≠ jsTrim (List.intercalate [46, 32]
          ((bedrockSentences (sanitizeText c8content)).take 5)) ++ [46] := by
  decide

/-- C8 (amended).  When the request reaches the generative call and that call
throws, the handler returns a 200 fallback whose summary is built from the
post-truncation text (split on `[.!?]+`, fragments of trimmed length > 10,
first `max(1, ceil(n/3))` joined) and is never empty; the 2-to-5 selection
bound belongs to the second (OpenAI) handler variant. -/
theorem c8_fallback_shape (ext : Svc) (req : Req) (text : List Nat)
    (fbuf : Option (List Nat)) (u : Bool)
    (h : loadText ext req = .loaded text fbuf)
    (h1 : ¬ jsTrim text = [])
    (h2 : ¬ (sanitizeText (ocrStage ext (req.rtype = strCodes fileStr) text fbuf).1 = [] ∨
        jsTrim (sanitizeText (ocrStage ext (req.rtype = strCodes fileStr) text fbuf).1) = []))
    (h3 : ¬ ((scoreTextQuality (sanitizeText
          (ocrStage ext (req.rtype = strCodes fileStr) text fbuf).1)).score < 0.10 ∨
        (jsSplitRuns isWsB (sanitizeText
          (ocrStage ext (req.rtype = strCodes fileStr) text fbuf).1)).length < 10))
    (hb : ext.bedrock (buildPrompt (effSummaryType req) (truncateContent (sanitizeText
        (ocrStage ext (req.rtype = strCodes fileStr) text fbuf).1)))
      = BedrockResp.threw u) :
    (handler ext req).res.statusCode = 200 ∧
    (handler ext req).res.source = some (strCodes fallbackSrcStr) ∧
    (handler ext req).res.summary = some (bedrockFallbackSummary (truncateContent
      (sanitizeText (ocrStage ext (req.rtype = strCodes fileStr) text fbuf).1))) ∧
    bedrockFallbackSummary (truncateContent
      (sanitizeText (ocrStage ext (req.rtype = strCodes fileStr) text fbuf).1)) ≠ [] ∧
    (handler ext req).bedrockCalled = true ∧
    (∀ n, 2 ≤ openAiFallbackCount n ∧ openAiFallbackCount n ≤ 5) := by
  have hne : bedrockFallbackSummary (truncateContent
      (sanitizeText (ocrStage ext (req.rtype = strCodes fileStr) text fbuf).1)) ≠ [] := by
    simp [bedrockFallbackSummary]
  have hcount : ∀ n, 2 ≤ openAiFallbackCount n ∧ openAiFallbackCount n ≤ 5 := by
    intro n
    unfold openAiFallbackCount
    omega
  simp only [handler, gateAndSummarize, h, if_neg h1, if_neg h2, if_neg h3, hb]
  simp [fallbackRes, hne, hcount]

unseal Rat.add Rat.mul Rat.ofScientific Rat.inv Rat.sub in
/-- Witness for C8 at a two-sentence note with the Bedrock call throwing. -/
theorem c8_fallback_shape_witness :
    (¬ jsTrim (strCodes c8wStr) = []) ∧
    ((handler extTriv reqC8w).res.statusCode = 200 ∧
      (handler extTriv reqC8w).res.source = some (strCodes fallbackSrcStr) ∧
      (handler extTriv reqC8w).res.summary = some (bedrockFallbackSummary (truncateContent
        (sanitizeText (ocrStage extTriv (reqC8w.rtype = strCodes fileStr)
          (strCodes c8wStr) none).1))) ∧
      bedrockFallbackSummary (truncateContent
        (sanitizeText (ocrStage extTriv (reqC8w.rtype = strCodes fileStr)
          (strCodes c8wStr) none).1)) ≠ [] ∧
      (handler extTriv reqC8w).bedrockCalled = true ∧
      (∀ n, 2 ≤ openAiFallbackCount n ∧ openAiFallbackCount n ≤ 5)) :=
  ⟨by decide, c8_fallback_shape extTriv reqC8w (strCodes c8wStr) none true (by decide) (by decide)
    (by decide) (by decide) rfl⟩

/-- The `originalLength` reported by the gate-and-summarize stage: present
exactly on the two summarizing outcomes, and equal to the length of the
truncated sanitized text. -/
lemma gate_originalLength (ext : Svc) (req : Req) (t : List Nat) (oc : Bool) :
    (gateAndSummarize ext req t oc).res.originalLength
      = if sanitizeText t = [] ∨ jsTrim (sanitizeText t) = [] then none
        else if (scoreTextQuality (sanitizeText t)).score < 0.10 ∨
            (jsSplitRuns isWsB (sanitizeText t)).length < 10 then none
        else some (truncateContent (sanitizeText t)).length := by
  simp only [gateAndSummarize]
  by_cases h2 : (sanitizeText t = [] ∨ jsTrim (sanitizeText t) = [])
  · simp [h2, errRes]
  · simp only [if_neg h2]
    by_cases h3 : ((scoreTextQuality (sanitizeText t)).score < 0.10 ∨
        (jsSplitRuns isWsB (sanitizeText t)).length < 10)
    · simp [h3, unreadableRes]
    · simp only [if_neg h3]
      rcases hb : ext.bedrock (buildPrompt (effSummaryType req)
          (truncateContent (sanitizeText t))) with u | out
      · simp [hb, fallbackRes]
      · simp [hb, bedrockOkRes]

/-- C10.  Every response that carries `originalLength` reports exactly the
length of the sanitized, possibly truncated text handed to the generative
call (`textSentToModel`); below the 6,000-character budget that text is the
sanitized text itself, and above it the reported length is 6,015 — the budget
plus the 15-character truncation marker — which exceeds the budget. -/
theorem c10_original_length :
    (∀ (ext : Svc) (req : Req),
      (handler ext req).res.originalLength
        = Option.map List.length (textSentToModel ext req)) ∧
    (∀ s : List Nat, s.length ≤ 6000 → truncateContent s = s) ∧
    (∀ s : List Nat, 6000 < s.length →
      (truncateContent s).length = 6015 ∧ 6000 < (truncateContent s).length) := by
  refine ⟨?_, ?_, ?_⟩
  · intro ext req
    rcases hl : loadText ext req with ⟨c, m⟩ | ⟨text, fbuf⟩
    · simp [handler, textSentToModel, hl, errRes]
    · by_cases h1 : jsTrim text = []
      · simp [handler, textSentToModel, hl, h1, errRes]
      · simp only [handler, textSentToModel, hl, if_neg h1, gate_originalLength]
        by_cases h2 : (sanitizeText (ocrStage ext (req.rtype = strCodes fileStr) text fbuf).1 = [] ∨
            jsTrim (sanitizeText (ocrStage ext (req.rtype = strCodes fileStr) text fbuf).1) = [])
        · simp [h2]
        · simp only [if_neg h2]
          by_cases h3 : ((scoreTextQuality (sanitizeText
                (ocrStage ext (req.rtype = strCodes fileStr) text fbuf).1)).score < 0.10 ∨
              (jsSplitRuns isWsB (sanitizeText
                (ocrStage ext (req.rtype = strCodes fileStr) text fbuf).1)).length < 10)
          · simp [h3]
          · simp [h3]
  · intro s h
    simp [truncateContent, Nat.not_lt.mpr h]
  · intro s h
    have hm : (strCodes truncMarkerStr).length = 15 := by decide
    constructor <;> simp [truncateContent, h, hm] <;> omega

/-- Witness for C10 at a 6,001-character text (truncation fires) and a
1-character text (no truncation). -/
theorem c10_original_length_witness :
    6000 < (List.replicate 6001 (97 : Nat)).length ∧
    (truncateContent (List.replicate 6001 (97 : Nat))).length = 6015 ∧
    ([97] : List Nat).length ≤ 6000 ∧
    truncateContent ([97] : List Nat) = [97] := by
  have h1 : 6000 < (List.replicate 6001 (97 : Nat)).length := by
    rw [List.length_replicate]
    omega
  have h2 : ([97] : List Nat).length ≤ 6000 := by
    rw [List.length_singleton]
    omega
  exact ⟨h1, (c10_original_length.2.2 _ h1).1, h2, c10_original_length.2.1 _ h2⟩

/-- The split always yields at least one piece. -/
lemma splitNP_ne_nil (l : List Nat) : splitNP l ≠ [] := by
  cases l with
  | nil => simp [splitNP]
  | cons c rest =>
    simp only [splitNP]
    split
    · rcases splitNP rest with _ | ⟨p, ps⟩ <;> simp
    · simp

/-- The run scanner agrees with splitting at non-printable bytes followed by
keeping the pieces of length at least 5; `run` is the (reversed) prefix of the
current piece already consumed. -/
lemma printRunsAux_eq_splitNP :
    ∀ (l : List Nat) (run : List Nat),
    printRunsAux run l
      = (match splitNP l with
          | p :: ps => (run.reverse ++ p) :: ps
          | [] => [run.reverse]).filter (fun r => decide (5 ≤ r.length)) := by
  intro l
  induction l with
  | nil =>
    intro run
    simp only [printRunsAux, splitNP, List.filter]
    by_cases h5 : 5 ≤ run.length <;> simp [h5]
  | cons c rest ih =>
    intro run
    by_cases hp : isPrintableB c = true
    · rcases hs : splitNP rest with _ | ⟨p, ps⟩
      · exact absurd hs (splitNP_ne_nil rest)
      · simp only [printRunsAux, hp, if_true, splitNP, hs]
        rw [ih (c :: run)]
        rw [hs]
        simp [List.append_assoc]
    · rcases hs : splitNP rest with _ | ⟨p, ps⟩
      · exact absurd hs (splitNP_ne_nil rest)
      · simp only [printRunsAux, hp, if_false, Bool.false_eq_true, splitNP, hs]
        rw [ih []]
        rw [hs]
        simp only [List.reverse_nil, List.nil_append, List.filter_cons]
        by_cases h5 : 5 ≤ run.length
        · simp [h5]
        · simp [h5, List.length_reverse]

/-- The regex-style run matcher finds exactly the length-≥-5 maximal printable
runs. -/
lemma jsMatchPrintableRuns_eq (l : List Nat) :
    jsMatchPrintableRuns l = (splitNP l).filter (fun r => decide (5 ≤ r.length)) := by
  unfold jsMatchPrintableRuns
  rw [printRunsAux_eq_splitNP l []]
  rcases hs : splitNP l with _ | ⟨p, ps⟩
  · exact absurd hs (splitNP_ne_nil l)
  · simp

/-- C7.  When the stream-scanning pass collects zero text-parts, extraction
equals the raw scan: every maximal run of 5-or-more printable ASCII bytes
(characterized independently by splitting the buffer at non-printable bytes),
each whitespace-collapsed and trimmed, empties dropped, joined with single
spaces and capped at 12,000 characters. -/
theorem c7_raw_scan_fallback (inflate : List Nat → Option (List Nat)) (buffer : List Nat)
    (h : streamLoop inflate buffer (buffer.length + 1) 0 = []) :
    extractTextFromPdfBuffer inflate buffer
      = (List.intercalate [32]
          ((((splitNP buffer).filter (fun r => decide (5 ≤ r.length))).map
            (fun m => jsTrim (replaceRuns isWsB 32 m))).filter
            (fun t => decide (0 < t.length)))).take 12000 := by
  unfold extractTextFromPdfBuffer
  rw [h]
  simp only [if_pos rfl]
  unfold rawScanParts
  rw [jsMatchPrintableRuns_eq]
  simp

/-- Witness for C7 at a buffer with no `stream` token. -/
theorem c7_raw_scan_fallback_witness :
    streamLoop (fun _ => none) (strCodes c7wStr) ((strCodes c7wStr).length + 1) 0 = [] ∧
    extractTextFromPdfBuffer (fun _ => none) (strCodes c7wStr)
      = (List.intercalate [32]
          ((((splitNP (strCodes c7wStr)).filter (fun r => decide (5 ≤ r.length))).map
            (fun m => jsTrim (replaceRuns isWsB 32 m))).filter
            (fun t => decide (0 < t.length)))).take 12000 :=
  ⟨by decide, c7_raw_scan_fallback (fun _ => none) (strCodes c7wStr) (by decide)⟩

/-- Run replacement leaves a string untouched when no character matches. -/
lemma replaceRunsAux_id (p : Nat → Bool) (r : Nat) :
    ∀ (l : List Nat), (∀ c ∈ l, p c = false) → ∀ b, replaceRunsAux p r b l = l := by
  intro l
  induction l with
  | nil => intro _ b; rfl
  | cons c rest ih =>
    intro h b
    have hc : p c = false := h c (List.mem_cons_self c rest)
    simp only [replaceRunsAux, hc, Bool.false_eq_true, if_false]
    rw [ih (fun d hd => h d (List.mem_cons_of_mem c hd)) false]

/-- Every character of a run replacement is the replacement character or a
non-matching input character. -/
lemma mem_replaceRunsAux (p : Nat → Bool) (r : Nat) :
    ∀ (l : List Nat) (b : Bool) (c : Nat), c ∈ replaceRunsAux p r b l →
      c = r ∨ (c ∈ l ∧ p c = false) := by
  intro l
  induction l with
  | nil => intro b c h; cases h
  | cons d rest ih =>
    intro b c h
    by_cases hd : p d = true
    · cases b with
      | true =>
        simp only [replaceRunsAux, hd, if_true] at h
        rcases ih true c h with h1 | ⟨h1, h2⟩
        · exact Or.inl h1
        · exact Or.inr ⟨List.mem_cons_of_mem d h1, h2⟩
      | false =>
        simp only [replaceRunsAux, hd, if_true] at h
        rcases List.mem_cons.mp h with rfl | h1
        · exact Or.inl rfl
        · rcases ih true c h1 with h2 | ⟨h2, h3⟩
          · exact Or.inl h2
          · exact Or.inr ⟨List.mem_cons_of_mem d h2, h3⟩
    · simp only [replaceRunsAux, hd, Bool.false_eq_true, if_false] at h
      rcases List.mem_cons.mp h with rfl | h1
      · exact Or.inr ⟨List.mem_cons_self c rest, Bool.not_eq_true _ ▸ hd⟩
      · rcases ih false c h1 with h2 | ⟨h2, h3⟩
        · exact Or.inl h2
        · exact Or.inr ⟨List.mem_cons_of_mem d h2, h3⟩

/-- Trim only removes characters. -/
lemma jsTrim_subset (l : List Nat) : ∀ c ∈ jsTrim l, c ∈ l := by
  intro c hc
  unfold jsTrim at hc
  rw [List.mem_reverse] at hc
  have h1 := (List.dropWhile_suffix isWsB).sublist.subset hc
  rw [List.mem_reverse] at h1
  exact (List.dropWhile_suffix isWsB).sublist.subset h1

/-- A printable character other than the space is not whitespace. -/
lemma printable_not_ws {c : Nat} (h : isPrintableB c = true) (h32 : c ≠ 32) :
    isWsB c = false := by
  cases hw : isWsB c
  · rfl
  · exfalso
    simp only [isPrintableB, Bool.and_eq_true, decide_eq_true_eq] at h
    simp only [isWsB, Bool.or_eq_true, Bool.and_eq_true, beq_iff_eq, decide_eq_true_eq] at hw
    omega

/-- Collapsing whitespace runs fixes every well-spaced string. -/
lemma replaceRuns_ws_id : ∀ (l : List Nat) (b : Bool), okSpaced b l →
    replaceRunsAux isWsB 32 b l = l := by
  intro l
  induction l with
  | nil => intro b _; rfl
  | cons c rest ih =>
    intro b h
    rcases h with ⟨hc, hrest⟩
    cases hw : isWsB c with
    | true =>
      rcases hc hw with ⟨h32, hb⟩
      subst hb
      simp only [replaceRunsAux, hw, if_true, Bool.false_eq_true, if_false]
      rw [h32, ih true (hw ▸ hrest)]
    | false =>
      simp only [replaceRunsAux, hw, Bool.false_eq_true, if_false]
      rw [ih false (hw ▸ hrest)]

/-- A trimmed string whose first and last characters are not whitespace is its
own trim. -/
lemma jsTrim_eq_self (l : List Nat)
    (h1 : ∀ c, l.head? = some c → isWsB c = false)
    (h2 : ∀ c, l.getLast? = some c → isWsB c = false) :
    jsTrim l = l := by
  cases l with
  | nil => rfl
  | cons c rest =>
    unfold jsTrim
    rw [List.dropWhile_cons_of_neg (by simp [h1 c rfl])]
    rcases hg : (c :: rest).getLast? with _ | d
    · simp at hg
    · have hrev : (c :: rest).reverse.head? = some d := by
        rw [List.head?_reverse]
        exact hg
      rcases hrevl : (c :: rest).reverse with _ | ⟨e, m⟩
      · simp at hrevl
      · rw [hrevl] at hrev
        simp only [List.head?_cons, Option.some_inj] at hrev
        subst hrev
        rw [List.dropWhile_cons_of_neg (by simp [h2 _ hg])]
        rw [← hrevl, List.reverse_reverse]

/-- No piece produced by the single-character split contains the separator. -/
lemma splitCharAux_no_sep (sep : Nat) :
    ∀ (l cur : List Nat), sep ∉ cur →
    ∀ piece ∈ splitCharAux sep cur l, sep ∉ piece := by
  intro l
  induction l with
  | nil =>
    intro cur hcur piece hp
    simp only [splitCharAux, List.mem_singleton] at hp
    subst hp
    simpa using hcur
  | cons c rest ih =>
    intro cur hcur piece hp
    by_cases hc : c = sep
    · simp only [splitCharAux, hc, if_true] at hp
      rcases List.mem_cons.mp hp with rfl | hp1
      · simpa using hcur
      · exact ih [] (by simp) piece hp1
    · simp only [splitCharAux, hc, if_false] at hp
      refine ih (c :: cur) ?_ piece hp
      intro hmem
      rcases List.mem_cons.mp hmem with h | h
      · exact hc h.symm
      · exact hcur h

/-- Every character of a split piece comes from the input or the
accumulator. -/
lemma splitCharAux_subset (sep : Nat) :
    ∀ (l cur : List Nat) (piece : List Nat), piece ∈ splitCharAux sep cur l →
    ∀ c ∈ piece, c ∈ cur ∨ c ∈ l := by
  intro l
  induction l with
  | nil =>
    intro cur piece hp c hc
    simp only [splitCharAux, List.mem_singleton] at hp
    subst hp
    rw [List.mem_reverse] at hc
    exact Or.inl hc
  | cons d rest ih =>
    intro cur piece hp c hc
    by_cases hd : d = sep
    · simp only [splitCharAux, hd, if_true] at hp
      rcases List.mem_cons.mp hp with rfl | hp1
      · rw [List.mem_reverse] at hc
        exact Or.inl hc
      · rcases ih [] piece hp1 c hc with h | h
        · cases h
        · exact Or.inr (List.mem_cons_of_mem _ h)
    · simp only [splitCharAux, hd, if_false] at hp
      rcases ih (d :: cur) piece hp c hc with h | h
      · rcases List.mem_cons.mp h with rfl | h1
        · exact Or.inr (List.mem_cons_self c rest)
        · exact Or.inl h1
      · exact Or.inr (List.mem_cons_of_mem _ h)

/-- Consuming a separator-free prefix just extends the accumulator. -/
lemma splitCharAux_append (sep : Nat) :
    ∀ (tok : List Nat), sep ∉ tok → ∀ (cur l : List Nat),
    splitCharAux sep cur (tok ++ l) = splitCharAux sep (tok.reverse ++ cur) l := by
  intro tok
  induction tok with
  | nil => intro _ cur l; simp
  | cons c rest ih =>
    intro h cur l
    have hc : ¬ c = sep := fun hcc => h (hcc ▸ List.mem_cons_self c rest)
    simp only [List.cons_append, splitCharAux, hc, if_false]
    rw [show rest.append l = rest ++ l from rfl,
      ih (fun hm => h (List.mem_cons_of_mem c hm)) (c :: cur) l]
    simp

/-- Round trip: splitting an intercalation of separator-free pieces recovers
the pieces. -/
lemma splitChar_intercalate (sep : Nat) :
    ∀ (toks : List (List Nat)), toks ≠ [] → (∀ tok ∈ toks, sep ∉ tok) →
    splitChar sep (List.intercalate [sep] toks) = toks := by
  intro toks
  induction toks with
  | nil => intro h _; exact absurd rfl h
  | cons tok rest ih =>
    intro _ hfree
    cases rest with
    | nil =>
      have h0 := splitCharAux_append sep tok (hfree tok (List.mem_cons_self tok [])) [] []
      simp only [List.append_nil] at h0
      unfold splitChar
      rw [show List.intercalate [sep] [tok] = tok by simp [List.intercalate], h0]
      simp [splitCharAux]
    | cons tok2 t =>
      unfold splitChar
      have hshape : List.intercalate [sep] (tok :: tok2 :: t)
          = tok ++ [sep] ++ List.intercalate [sep] (tok2 :: t) := by
        simp [List.intercalate, List.intersperse_cons_cons]
      rw [hshape, List.append_assoc, splitCharAux_append sep tok
        (hfree tok (List.mem_cons_self tok _)) [] _]
      simp only [List.cons_append, List.nil_append, List.append_eq, splitCharAux, if_true]
      rw [show splitCharAux sep [] (List.intercalate [sep] (tok2 :: t))
          = splitChar sep (List.intercalate [sep] (tok2 :: t)) from rfl]
      rw [ih (by simp) (fun x hx => hfree x (List.mem_cons_of_mem tok hx))]
      simp

/-- A good token contains no whitespace at all. -/
lemma goodTok_no_ws {tok : List Nat} (h : goodTok tok) : ∀ c ∈ tok, isWsB c = false := by
  intro c hc
  exact printable_not_ws (h.2.1 c hc) (fun h32 => h.2.2 (h32 ▸ hc))

/-- Prepending a whitespace-free non-empty token preserves well-spacing, for
either incoming flag. -/
lemma okSpaced_nonws_append :
    ∀ (tok : List Nat), (∀ c ∈ tok, isWsB c = false) → tok ≠ [] →
    ∀ (l : List Nat), okSpaced false l → ∀ b, okSpaced b (tok ++ l) := by
  intro tok
  induction tok with
  | nil => intro _ h; exact absurd rfl h
  | cons c rest ih =>
    intro h _ l hl b
    have hc : isWsB c = false := h c (List.mem_cons_self c rest)
    refine ⟨fun hw => absurd (hc ▸ hw) (by simp), ?_⟩
    rw [hc]
    cases rest with
    | nil => exact hl
    | cons d m =>
      exact ih (fun e he => h e (List.mem_cons_of_mem c he)) (by simp) l hl false

/-- Well-spacing can start in the in-run state when the first character is not
whitespace. -/
lemma okSpaced_true_of_head (l : List Nat) (h : okSpaced false l)
    (hh : ∀ c, l.head? = some c → isWsB c = false) : okSpaced true l := by
  cases l with
  | nil => trivial
  | cons c m =>
    refine ⟨fun hw => absurd hw (by rw [hh c rfl]; simp), h.2⟩

/-- An intercalation of good tokens, followed by any well-spaced tail, is
well-spaced. -/
lemma okSpaced_intercalate_tail :
    ∀ (toks : List (List Nat)), (∀ tok ∈ toks, goodTok tok) →
    ∀ (tail : List Nat), okSpaced false tail →
    okSpaced false (List.intercalate [32] toks ++ tail) := by
  intro toks
  induction toks with
  | nil =>
    intro _ tail htail
    simpa [List.intercalate] using htail
  | cons tok rest ih =>
    intro hg tail htail
    have hgood := hg tok (List.mem_cons_self tok rest)
    cases rest with
    | nil =>
      rw [show List.intercalate [32] [tok] = tok by simp [List.intercalate]]
      exact okSpaced_nonws_append tok (goodTok_no_ws hgood) hgood.1 tail htail false
    | cons tok2 ts =>
      have hshape : List.intercalate [32] (tok :: tok2 :: ts)
          = tok ++ ([32] ++ List.intercalate [32] (tok2 :: ts)) := by
        simp [List.intercalate, List.intersperse_cons_cons]
      rw [hshape, List.append_assoc, List.append_assoc]
      refine okSpaced_nonws_append tok (goodTok_no_ws hgood) hgood.1 _ ?_ false
      have hgood2 := hg tok2 (List.mem_cons_of_mem tok (List.mem_cons_self tok2 ts))
      have hrec := ih (fun x hx => hg x (List.mem_cons_of_mem tok hx)) tail htail
      have hhead : ∀ c, (List.intercalate [32] (tok2 :: ts) ++ tail).head? = some c →
          isWsB c = false := by
        intro c hc
        rcases intercalate_cons_shape [32] tok2 ts with ⟨r, hr⟩
        rcases htok2 : tok2 with _ | ⟨c2, m2⟩
        · exact absurd htok2 hgood2.1
        · rw [hr, htok2] at hc
          simp only [List.cons_append, List.head?_cons, Option.some_inj] at hc
          rw [← hc]
          exact goodTok_no_ws hgood2 c2 (htok2 ▸ List.mem_cons_self c2 m2)
      have hup := okSpaced_true_of_head _ hrec hhead
      have h32 : isWsB 32 = true := by decide
      refine ⟨fun _ => ⟨rfl, rfl⟩, ?_⟩
      rw [h32]
      simpa using hup

/-- Head of an intercalation over a leading non-empty piece. -/
lemma intercalate_head (sep : List Nat) (tok : List Nat) (ts : List (List Nat))
    (h : tok ≠ []) :
    (List.intercalate sep (tok :: ts)).head? = tok.head? := by
  rcases intercalate_cons_shape sep tok ts with ⟨r, hr⟩
  rw [hr]
  rcases tok with _ | ⟨c, m⟩
  · exact absurd rfl h
  · rfl

/-- Last element of an intercalation whose last piece is non-empty. -/
lemma intercalate_getLast (sep : List Nat) :
    ∀ (toks : List (List Nat)) (tok : List Nat), toks ≠ [] → (∀ x ∈ toks, x ≠ []) →
    toks.getLast? = some tok →
    (List.intercalate sep toks).getLast? = tok.getLast? := by
  intro toks
  induction toks with
  | nil => intro tok h; exact absurd rfl h
  | cons t1 rest ih =>
    intro tok _ hne hlast
    cases rest with
    | nil =>
      have h1 : t1 = tok := by simpa using hlast
      subst h1
      rw [show List.intercalate sep [t1] = t1 by simp [List.intercalate]]
    | cons t2 ts =>
      have hshape : List.intercalate sep (t1 :: t2 :: ts)
          = t1 ++ (sep ++ List.intercalate sep (t2 :: ts)) := by
        simp [List.intercalate, List.intersperse_cons_cons]
      have hlast2 : (t2 :: ts).getLast? = some tok := by
        simpa using hlast
      have hrec := ih tok (by simp) (fun x hx => hne x (List.mem_cons_of_mem t1 hx)) hlast2
      have hne2 : List.intercalate sep (t2 :: ts) ≠ [] := by
        rcases intercalate_cons_shape sep t2 ts with ⟨r, hr⟩
        rw [hr]
        have := hne t2 (List.mem_cons_of_mem t1 (List.mem_cons_self t2 ts))
        rcases t2 with _ | ⟨c, m⟩
        · exact absurd rfl this
        · simp
      rcases hX : (List.intercalate sep (t2 :: ts)).getLast? with _ | w
      · rw [List.getLast?_eq_none_iff] at hX
        exact absurd hX hne2
      · rw [hshape, ← hrec]
        simp [List.getLast?_append, hX]

/-- Membership in an intercalation with the space separator. -/
lemma mem_intercalate32 :
    ∀ (toks : List (List Nat)) (c : Nat), c ∈ List.intercalate [32] toks →
    c = 32 ∨ ∃ tok ∈ toks, c ∈ tok := by
  intro toks
  induction toks with
  | nil => intro c hc; simp [List.intercalate] at hc
  | cons tok rest ih =>
    intro c hc
    cases rest with
    | nil =>
      rw [show List.intercalate [32] [tok] = tok by simp [List.intercalate]] at hc
      exact Or.inr ⟨tok, List.mem_cons_self tok [], hc⟩
    | cons tok2 ts =>
      have hshape : List.intercalate [32] (tok :: tok2 :: ts)
          = tok ++ ([32] ++ List.intercalate [32] (tok2 :: ts)) := by
        simp [List.intercalate, List.intersperse_cons_cons]
      rw [hshape] at hc
      rcases List.mem_append.mp hc with h | h
      · exact Or.inr ⟨tok, List.mem_cons_self tok _, h⟩
      · rcases List.mem_append.mp h with h1 | h1
        · exact Or.inl (List.mem_singleton.mp h1)
        · rcases ih c h1 with h2 | ⟨t, ht, hct⟩
          · exact Or.inl h2
          · exact Or.inr ⟨t, List.mem_cons_of_mem tok ht, hct⟩

/-- The first character of an intercalation of good tokens is not
whitespace. -/
lemma inter_head_not_ws (tok : List Nat) (ts : List (List Nat))
    (hg : ∀ x ∈ tok :: ts, goodTok x) :
    ∀ c, (List.intercalate [32] (tok :: ts)).head? = some c → isWsB c = false := by
  have hgood := hg tok (List.mem_cons_self tok ts)
  intro c hc
  rw [intercalate_head [32] tok ts hgood.1] at hc
  rcases htok : tok with _ | ⟨c1, m1⟩
  · exact absurd htok hgood.1
  · rw [htok] at hc
    simp only [List.head?_cons, Option.some_inj] at hc
    rw [← hc]
    exact goodTok_no_ws hgood c1 (htok ▸ List.mem_cons_self c1 m1)

/-- The last character of an intercalation of good tokens is not
whitespace. -/
lemma inter_last_not_ws (tok : List Nat) (ts : List (List Nat))
    (hg : ∀ x ∈ tok :: ts, goodTok x) :
    ∀ c, (List.intercalate [32] (tok :: ts)).getLast? = some c → isWsB c = false := by
  intro c hc
  rcases hlast : (tok :: ts).getLast? with _ | tokL
  · simp at hlast
  · have htokL := hg tokL (List.mem_of_getLast?_eq_some hlast)
    rw [intercalate_getLast [32] (tok :: ts) tokL (by simp)
      (fun x hx => (hg x hx).1) hlast] at hc
    exact goodTok_no_ws htokL c (List.mem_of_getLast?_eq_some hc)

/-- Dropping while a predicate fails at the head changes nothing. -/
lemma dropWhile_eq_self_of_head (p : Nat → Bool) (l : List Nat)
    (h : ∀ c, l.head? = some c → p c = false) : l.dropWhile p = l := by
  cases l with
  | nil => rfl
  | cons c m => rw [List.dropWhile_cons_of_neg (by simp [h c rfl])]

/-- Trim fixes an intercalation of good tokens. -/
lemma jsTrim_intercalate (tok : List Nat) (ts : List (List Nat))
    (hg : ∀ x ∈ tok :: ts, goodTok x) :
    jsTrim (List.intercalate [32] (tok :: ts)) = List.intercalate [32] (tok :: ts) :=
  jsTrim_eq_self _ (inter_head_not_ws tok ts hg) (inter_last_not_ws tok ts hg)

/-- Trim removes exactly a trailing space after an intercalation of good
tokens. -/
lemma jsTrim_intercalate_sep (tok : List Nat) (ts : List (List Nat))
    (hg : ∀ x ∈ tok :: ts, goodTok x) :
    jsTrim (List.intercalate [32] (tok :: ts) ++ [32])
      = List.intercalate [32] (tok :: ts) := by
  have hfix := jsTrim_intercalate tok ts hg
  unfold jsTrim at hfix ⊢
  have hdI : List.dropWhile isWsB (List.intercalate [32] (tok :: ts))
      = List.intercalate [32] (tok :: ts) :=
    dropWhile_eq_self_of_head isWsB _ (inter_head_not_ws tok ts hg)
  have hd2 : List.dropWhile isWsB (List.intercalate [32] (tok :: ts) ++ [32])
      = List.intercalate [32] (tok :: ts) ++ [32] := by
    apply dropWhile_eq_self_of_head
    intro c hc
    rcases hI : List.intercalate [32] (tok :: ts) with _ | ⟨c1, m1⟩
    · rcases intercalate_cons_shape [32] tok ts with ⟨r, hr⟩
      rw [hr] at hI
      rcases htok : tok with _ | ⟨d, m⟩
      · exact absurd htok (hg tok (List.mem_cons_self tok ts)).1
      · rw [htok] at hI
        cases hI
    · rw [hI, List.cons_append, List.head?_cons, Option.some_inj] at hc
      rw [← hc]
      apply inter_head_not_ws tok ts hg
      rw [hI]
      rfl
  rw [hd2, List.reverse_append, show ([32] : List Nat).reverse = [32] from rfl,
    List.singleton_append, List.dropWhile_cons_of_pos (by decide)]
  rw [hdI] at hfix
  exact hfix

/-- Every character of the cleaned intermediate of the sanitizer is printable. -/
lemma sanitizeCleaned_printable (t : List Nat) :
    ∀ c ∈ sanitizeCleaned t, isPrintableB c = true := by
  intro c hc
  unfold sanitizeCleaned at hc
  have h1 := jsTrim_subset _ c hc
  unfold replaceRuns at h1
  rcases mem_replaceRunsAux isWsB 32 _ false c h1 with rfl | ⟨h2, _⟩
  · decide
  · rcases mem_replaceRunsAux (fun d => !isPrintableB d) 32 t false c h2 with rfl | ⟨_, h3⟩
    · decide
    · simpa using h3

/-- Cleaning fixes an intercalation of good tokens. -/
lemma sanitizeCleaned_intercalate (tok : List Nat) (ts : List (List Nat))
    (hg : ∀ x ∈ tok :: ts, goodTok x) :
    sanitizeCleaned (List.intercalate [32] (tok :: ts))
      = List.intercalate [32] (tok :: ts) := by
  have hprint : ∀ c ∈ List.intercalate [32] (tok :: ts), isPrintableB c = true := by
    intro c hc
    rcases mem_intercalate32 (tok :: ts) c hc with rfl | ⟨x, hx, hcx⟩
    · decide
    · exact (hg x hx).2.1 c hcx
  unfold sanitizeCleaned replaceRuns
  rw [replaceRunsAux_id (fun d => !isPrintableB d) 32 _
    (fun c hc => by simp [hprint c hc]) false]
  rw [replaceRuns_ws_id _ false (by
    have := okSpaced_intercalate_tail (tok :: ts) hg [] trivial
    simpa using this)]
  exact jsTrim_intercalate tok ts hg

/-- Cleaning an intercalation of good tokens with one trailing space yields
the intercalation. -/
lemma sanitizeCleaned_intercalate_sep (tok : List Nat) (ts : List (List Nat))
    (hg : ∀ x ∈ tok :: ts, goodTok x) :
    sanitizeCleaned (List.intercalate [32] (tok :: ts) ++ [32])
      = List.intercalate [32] (tok :: ts) := by
  have hprint : ∀ c ∈ List.intercalate [32] (tok :: ts) ++ [32], isPrintableB c = true := by
    intro c hc
    rcases List.mem_append.mp hc with h | h
    · rcases mem_intercalate32 (tok :: ts) c h with rfl | ⟨x, hx, hcx⟩
      · decide
      · exact (hg x hx).2.1 c hcx
    · rw [List.mem_singleton.mp h]
      decide
  unfold sanitizeCleaned replaceRuns
  rw [replaceRunsAux_id (fun d => !isPrintableB d) 32 _
    (fun c hc => by simp [hprint c hc]) false]
  rw [replaceRuns_ws_id _ false
    (okSpaced_intercalate_tail (tok :: ts) hg [32] ⟨fun _ => ⟨rfl, rfl⟩, trivial⟩)]
  exact jsTrim_intercalate_sep tok ts hg

/-- The pre-cap pass of the sanitizer fixes an intercalation of good tokens that
all pass the token filter. -/
lemma sanitizePreCap_intercalate (tok : List Nat) (ts : List (List Nat))
    (hg : ∀ x ∈ tok :: ts, goodTok x) (hf : ∀ x ∈ tok :: ts, filterTok x = true) :
    sanitizePreCap (List.intercalate [32] (tok :: ts))
      = List.intercalate [32] (tok :: ts) := by
  unfold sanitizePreCap
  rw [sanitizeCleaned_intercalate tok ts hg,
    splitChar_intercalate 32 (tok :: ts) (by simp) (fun x hx => (hg x hx).2.2),
    List.filter_eq_self.mpr hf]
  exact jsTrim_intercalate tok ts hg

/-- The same, with one trailing space (which cleaning removes). -/
lemma sanitizePreCap_intercalate_sep (tok : List Nat) (ts : List (List Nat))
    (hg : ∀ x ∈ tok :: ts, goodTok x) (hf : ∀ x ∈ tok :: ts, filterTok x = true) :
    sanitizePreCap (List.intercalate [32] (tok :: ts) ++ [32])
      = List.intercalate [32] (tok :: ts) := by
  unfold sanitizePreCap
  rw [sanitizeCleaned_intercalate_sep tok ts hg,
    splitChar_intercalate 32 (tok :: ts) (by simp) (fun x hx => (hg x hx).2.2),
    List.filter_eq_self.mpr hf]
  exact jsTrim_intercalate tok ts hg

/-- The pre-cap sanitization pass is idempotent. -/
lemma sanitizePreCap_idem (t : List Nat) :
    sanitizePreCap (sanitizePreCap t) = sanitizePreCap t := by
  have hfall : ∀ x ∈ (splitChar 32 (sanitizeCleaned t)).filter filterTok,
      filterTok x = true := fun x hx => List.of_mem_filter hx
  have hgood : ∀ x ∈ (splitChar 32 (sanitizeCleaned t)).filter filterTok, goodTok x := by
    intro x hx
    have hx1 := List.mem_of_mem_filter hx
    refine ⟨?_, ?_, ?_⟩
    · intro hxe
      subst hxe
      have := hfall [] hx
      simp [filterTok] at this
    · intro c hc
      rcases splitCharAux_subset 32 (sanitizeCleaned t) [] x hx1 c hc with h | h
      · cases h
      · exact sanitizeCleaned_printable t c h
    · exact splitCharAux_no_sep 32 (sanitizeCleaned t) [] (by simp) x hx1
  rcases htoks : (splitChar 32 (sanitizeCleaned t)).filter filterTok with _ | ⟨tok, ts⟩
  · have hpre : sanitizePreCap t = [] := by
      unfold sanitizePreCap
      rw [htoks]
      rfl
    rw [hpre]
    decide
  · have hpre : sanitizePreCap t = List.intercalate [32] (tok :: ts) := by
      unfold sanitizePreCap
      rw [htoks]
      exact jsTrim_intercalate tok ts (htoks ▸ hgood)
    rw [hpre]
    exact sanitizePreCap_intercalate tok ts (htoks ▸ hgood) (htoks ▸ hfall)

/-- C4 (amended).  Sanitization is idempotent on every input whose pre-cap
result fits in the 12,000-character cap. -/
theorem c4_sanitize_idem (t : List Nat) (h : (sanitizePreCap t).length ≤ 12000) :
    sanitizeText (sanitizeText t) = sanitizeText t := by
  have h1 : sanitizeText t = sanitizePreCap t := by
    unfold sanitizeText
    rw [if_neg (by omega)]
  rw [h1]
  unfold sanitizeText
  rw [sanitizePreCap_idem t, if_neg (by omega)]

/-- Witness for C4 at the short input `"tidy room"`. -/
theorem c4_sanitize_idem_witness :
    (sanitizePreCap (strCodes c4wStr)).length ≤ 12000 ∧
    sanitizeText (sanitizeText (strCodes c4wStr)) = sanitizeText (strCodes c4wStr) :=
  ⟨by decide, c4_sanitize_idem (strCodes c4wStr) (by decide)⟩

lemma interAB_succ_succ (n : Nat) : interAB (n + 2) = 97 :: 98 :: 32 :: interAB (n + 1) := by
  have hshape : List.intercalate [32] (abBlock :: abBlock :: List.replicate n abBlock)
      = abBlock ++ ([32] ++ List.intercalate [32] (abBlock :: List.replicate n abBlock)) := by
    simp [List.intercalate, List.intersperse_cons_cons]
  unfold interAB
  simp only [List.replicate_succ]
  rw [hshape]
  rfl

lemma interAB_length : ∀ n, (interAB (n + 1)).length = 3 * n + 2 := by
  intro n
  induction n with
  | zero => decide
  | succ m ih =>
    rw [show m + 1 + 1 = m + 2 from rfl, interAB_succ_succ m]
    simp only [List.length_cons, ih]
    omega

lemma flatAB_succ (n : Nat) : flatAB (n + 1) = 97 :: 98 :: 32 :: flatAB n := by
  simp [flatAB, List.replicate_succ]

lemma flatAB_eq_interAB_sep : ∀ n, flatAB (n + 1) = interAB (n + 1) ++ [32] := by
  intro n
  induction n with
  | zero => decide
  | succ m ih =>
    rw [show m + 1 + 1 = m + 2 from rfl, flatAB_succ (m + 1), ih, interAB_succ_succ m]
    rfl

lemma interAB_take : ∀ n, (interAB (n + 1)).take (3 * n) = flatAB n := by
  intro n
  induction n with
  | zero => decide
  | succ m ih =>
    rw [show m + 1 + 1 = m + 2 from rfl, interAB_succ_succ m, flatAB_succ m,
      show 3 * (m + 1) = 3 * m + 1 + 1 + 1 from by ring]
    simp only [List.take_succ_cons, ih]

lemma goodTok_abBlock : goodTok abBlock := by
  refine ⟨by decide, ?_, by decide⟩
  intro c hc
  rcases List.mem_cons.mp hc with rfl | hc1
  · decide
  · rcases List.mem_cons.mp hc1 with rfl | hc2
    · decide
    · cases hc2

lemma replicate_abBlock_good (k : Nat) :
    ∀ x ∈ abBlock :: List.replicate k abBlock, goodTok x := by
  intro x hx
  rcases List.mem_cons.mp hx with rfl | hx1
  · exact goodTok_abBlock
  · rw [List.eq_of_mem_replicate hx1]
    exact goodTok_abBlock

lemma replicate_abBlock_filter (k : Nat) :
    ∀ x ∈ abBlock :: List.replicate k abBlock, filterTok x = true := by
  intro x hx
  rcases List.mem_cons.mp hx with rfl | hx1
  · decide
  · rw [List.eq_of_mem_replicate hx1]
    decide

lemma sanitizePreCap_interAB (n : Nat) :
    sanitizePreCap (interAB (n + 1)) = interAB (n + 1) := by
  unfold interAB
  rw [List.replicate_succ]
  exact sanitizePreCap_intercalate abBlock (List.replicate n abBlock)
    (replicate_abBlock_good n) (replicate_abBlock_filter n)

lemma sanitizePreCap_flatAB (n : Nat) :
    sanitizePreCap (flatAB (n + 1)) = interAB (n + 1) := by
  rw [flatAB_eq_interAB_sep n]
  unfold interAB
  rw [List.replicate_succ]
  exact sanitizePreCap_intercalate_sep abBlock (List.replicate n abBlock)
    (replicate_abBlock_good n) (replicate_abBlock_filter n)

lemma sanitizeText_interAB_4001 : sanitizeText (interAB 4001) = flatAB 4000 := by
  have hpre : sanitizePreCap (interAB 4001) = interAB 4001 := by
    have := sanitizePreCap_interAB 4000
    norm_num at this
    exact this
  have hlen : (interAB 4001).length = 12002 := by
    have := interAB_length 4000
    norm_num at this
    exact this
  have htake : (interAB 4001).take 12000 = flatAB 4000 := by
    have := interAB_take 4000
    norm_num at this
    exact this
  unfold sanitizeText
  rw [hpre, hlen, if_pos (by omega), htake]

lemma sanitizeText_flatAB_4000 : sanitizeText (flatAB 4000) = interAB 4000 := by
  have hpre : sanitizePreCap (flatAB 4000) = interAB 4000 := by
    have := sanitizePreCap_flatAB 3999
    norm_num at this
    exact this
  have hlen : (interAB 4000).length = 11999 := by
    have := interAB_length 3999
    norm_num at this
    exact this
  unfold sanitizeText
  rw [hpre, hlen, if_neg (by omega)]

/-- C4 is false as stated: on 4,001 copies of the token `"ab"` joined by
single spaces the first sanitization caps the 12,002-character result at
12,000 characters, leaving a trailing space, and the second sanitization
removes it, so the results differ. -/
theorem c4_sanitize_idem_cex :
    sanitizeText (sanitizeText (interAB 4001)) ≠ sanitizeText (interAB 4001) := by
  rw [sanitizeText_interAB_4001, sanitizeText_flatAB_4000]
  intro heq
  have h1 := congrArg List.length heq
  have hlen : (interAB 4000).length = 11999 := by
    have := interAB_length 3999
    norm_num at this
    exact this
  have hflat : flatAB 4000 = interAB 4000 ++ [32] := by
    have := flatAB_eq_interAB_sep 3999
    norm_num at this
    exact this
  rw [hflat, List.length_append, hlen] at h1
  simp at h1
